import Mathlib

/-!
Verification development for the go-relax HTTP service framework.

Shallow embedding of the routing trie, response buffering, the ETag and
gzip filters, the CORS filter, request-id validation and the in-memory
token bucket, translated from the Go sources.  Machine integers are
modelled as `Nat`/`Int` (Go `int` overflow is irrelevant at the sizes
involved); byte strings are `List Nat`; Go maps with string keys are
association lists (map iteration order is modelled as insertion order).
External collaborators (the regexp engine, float-typed quality parsing,
the UUID generator, clocks) are abstracted as explicit parameters, as
the spec treats them as interfaces only.
-/

namespace Relax

/-- Typed error carrying an HTTP status code, as in the Go `StatusError`
struct (the `details` field is always nil for the errors modelled here
and is omitted). -/
structure StatusError where
  code : Nat
  message : String
  deriving DecidableEq, Repr

/-! ## Go string helpers -/

/-- Go `strings.Contains(s, substr)` on character lists: true when `sub`
occurs as a contiguous run inside `l` (true for the empty `sub`). -/
def listContainsSeg (l sub : List Char) : Bool :=
  match l with
  | [] => sub.isEmpty
  | _ :: t => sub.isPrefixOf l || listContainsSeg t sub

/-- Go `strings.Contains` on strings. -/
def strContains (s sub : String) : Bool :=
  listContainsSeg s.toList sub.toList

/-- Go `strings.TrimRight(s, "/")`: drop trailing slash characters. -/
def trimRightSlash (s : String) : String :=
  String.mk ((s.toList.reverse.dropWhile (fun c => c == '/')).reverse)

/-- Splitting loop for `strings.Split` with a one-character separator
(`cur` holds the current field reversed). -/
def splitCharAux (sep : Char) : List Char → List Char → List String
  | [], cur => [String.mk cur.reverse]
  | c :: t, cur =>
      if c == sep then String.mk cur.reverse :: splitCharAux sep t []
      else splitCharAux sep t (c :: cur)

/-- Go `strings.Split(s, sep)` for a one-character separator. -/
def strSplitChar (s : String) (sep : Char) : List String :=
  splitCharAux sep s.toList []

/-- Go `strings.TrimSpace`. -/
def strTrim (s : String) : String :=
  String.mk (((s.toList.dropWhile Char.isWhitespace).reverse.dropWhile
    Char.isWhitespace).reverse)

/-- Go `strings.HasPrefix(s, p)`. -/
def strStartsWith (s p : String) : Bool :=
  p.toList.isPrefixOf s.toList

/-- Go `strings.Join`. -/
def strJoin (sep : String) : List String → String
  | [] => ""
  | s :: t => t.foldl (fun acc x => acc ++ sep ++ x) s

/-- Go `strings.Split(method + strings.TrimRight(path, "/"), "/")`, the
canonical segment list a route or request is keyed by (the uppercased
method is prepended before splitting). -/
def routeSegs (method path : String) : List String :=
  strSplitChar (method ++ trimRightSlash path) '/'

/-! ## Go `http.Header` model

Headers are association lists from a (canonical) header name to its list
of values.  `hSet` replaces all values, `hAdd` appends one, `hGet`
returns the first value or the empty string, matching `net/http`. -/

abbrev Headers := List (String × List String)

def hGet (h : Headers) (k : String) : String :=
  match h.find? (fun p => p.1 == k) with
  | some (_, v :: _) => v
  | _ => ""

def hHas (h : Headers) (k : String) : Bool :=
  h.any (fun p => p.1 == k)

/-- `Header.Set`: replace the binding of `k` (a Go map binds each key
once; the binding is updated in place, or appended when absent). -/
def hSet : Headers → String → String → Headers
  | [], k, v => [(k, [v])]
  | p :: t, k, v => if p.1 == k then (k, [v]) :: t else p :: hSet t k v

/-- `Header.Add`: append one value to the binding of `k`. -/
def hAdd : Headers → String → String → Headers
  | [], k, v => [(k, [v])]
  | p :: t, k, v => if p.1 == k then (p.1, p.2 ++ [v]) :: t else p :: hAdd t k v

/-- All values recorded for a key (Go `header[k]`). -/
def hValues (h : Headers) (k : String) : List String :=
  match h.find? (fun p => p.1 == k) with
  | some (_, vs) => vs
  | none => []

/-- Raw merge loop `for k, v := range src { dst[k] = v }` used by
`ResponseBuffer.FlushHeader` and by the CORS filter when emitting its
computed headers. -/
def hMergeInto (dst src : Headers) : Headers :=
  src.foldl (fun acc p => (acc.filter (fun q => ¬ q.1 == p.1)) ++ [p]) dst

/-! ## WriteHeader models (claim C3)

`Context` (src/context.go) wraps an underlying `http.ResponseWriter`;
its `WriteHeader` records the code once and forwards it once.
`ResponseBuffer` (src/response_buffer.go) records the code without
forwarding.  `forwarded` records every code passed to the underlying
writer so that the single-forward behaviour is observable. -/

structure CtxWriter where
  wroteHeader : Bool
  status : Nat
  forwarded : List Nat
  deriving DecidableEq, Repr

/-- `Context.WriteHeader` from src/context.go lines 136-143. -/
def ctxWriteHeader (c : CtxWriter) (code : Nat) : CtxWriter :=
  if c.wroteHeader then c
  else { wroteHeader := true, status := code, forwarded := c.forwarded ++ [code] }

structure BufWriter where
  wroteHeader : Bool
  status : Nat
  deriving DecidableEq, Repr

/-- `ResponseBuffer.WriteHeader` from src/response_buffer.go lines 43-49. -/
def bufWriteHeader (b : BufWriter) (code : Nat) : BufWriter :=
  if b.wroteHeader then b
  else { wroteHeader := true, status := code }

/-- `Context.Status`: 200 until a header is written. -/
def ctxStatus (c : CtxWriter) : Nat :=
  if c.wroteHeader then c.status else 200

/-- `ResponseBuffer.Status`: 200 until a header is written. -/
def bufStatus (b : BufWriter) : Nat :=
  if b.wroteHeader then b.status else 200

/-! ## Respond / adapter panic path (claim C9) -/

/-- Outcome of running a handler body: either a normal return value or a
propagating panic (Go `panic(err)`). -/
inductive Outcome (α : Type) where
  | ok (a : α)
  | panicked (msg : String)
  deriving DecidableEq, Repr

/-- State of the per-request context visible to the claims: the
write-once status tracker, the response headers and the body bytes. -/
structure CtxState where
  w : CtxWriter
  headers : Headers
  body : List Nat
  deriving DecidableEq, Repr

/-- `Context.Respond` (src/context.go lines 176-187): optionally write
the status code, then encode `v` to the response writer.  The bound
encoder is modelled by its result on `v`: either the encoded bytes or an
error message.  On an encoder error the Go code panics instead of
returning the error, so a normal return always carries a nil error. -/
def respond (enc : Except String (List Nat)) (code : Option Nat) (ctx : CtxState) :
    Outcome (CtxState × Option String) :=
  let ctx1 : CtxState :=
    match code with
    | some c => { ctx with w := ctxWriteHeader ctx.w c }
    | none => ctx
  match enc with
  | .error e => .panicked e
  | .ok bs => .ok ({ ctx1 with body := ctx1.body ++ bs }, none)

/-- The panic-recovery wrapper of `Service.Adapter` (src/service.go lines
194-199): a panic anywhere in the handler chain is recovered and answered
with `http.Error(ctx, ..., 500)`, which sets the status to 500 and writes
the status text as the body. -/
def adapterRecover (run : Outcome (CtxState × Option String)) (ctx : CtxState) : CtxState :=
  match run with
  | .ok (ctx1, _) => ctx1
  | .panicked _ =>
      { ctx with
        w := ctxWriteHeader ctx.w 500,
        headers := hSet ctx.headers "Content-Type" "text/plain; charset=utf-8",
        body := "Internal Server Error\n".toList.map Char.toNat }

/-! ## NewRequestID (claim C7)

src/util.go lines 41-63 (identical logic in src/service.go lines
121-143).  Returning `none` models "generate a fresh UUID"; `some id`
models returning the client-supplied id unchanged.  The Go loop index
`i` is the UTF-8 byte offset of the current rune, and `l` remembers the
byte offset of the last rune examined. -/

def validIDChar (c : Char) : Bool :=
  ('A' ≤ c && c ≤ 'Z') || ('a' ≤ c && c ≤ 'z') || ('0' ≤ c && c ≤ '9') ||
    c == '-' || c == '_' || c == '.' || c == '~' || c == '%' || c == '+'

/-- One pass of the validation loop.  `i` is the byte offset of the next
rune; the result is the final value of `l` (byte offset of the last
rune), or `none` when the switch fell into the UUID-returning branch.
The Go `case i > 199: fallthrough` arm is unreachable for valid
characters (an earlier case already matched) and for invalid characters
it falls through to the same `default:` return, so the loop rejects
exactly the ids containing an invalid character. -/
def requestIDScan (cs : List Char) (i l : Nat) : Option Nat :=
  match cs with
  | [] => some l
  | c :: rest =>
      if validIDChar c then requestIDScan rest (i + c.utf8Size) i
      else none

/-- `NewRequestID` from src/util.go: `none` stands for a freshly
generated UUID, `some id` for the validated client id. -/
def newRequestID (id : String) : Option String :=
  if id == "" then none
  else
    match requestIDScan id.toList 0 0 with
    | none => none
    | some l => if l < 20 then none else some id

/-! ## In-memory token bucket (claims C8, C10)

src/filter/limits/throttle.go.  `MemBucket` stores per-key
`tokenBucket{Tokens, When}` records in a camlistore LRU cache; the cache
is modelled as an association list with the most recently used entry in
front (`lru.Cache.Get` moves an entry to the front, `lru.Cache.Add`
inserts in front and evicts the least recently used entry beyond
`maxKeys`).  Time is in nanoseconds (`time.Time`/`time.Duration` are
int64 nanosecond counts); `now` is passed explicitly.  Go `int` is
`Int`. -/

structure TokenBucket where
  tokens : Int
  whenNs : Nat
  deriving DecidableEq, Repr

structure MemBucket where
  size : Int
  rate : Int
  maxKeys : Nat
  deriving DecidableEq, Repr

abbrev BucketCache := List (String × TokenBucket)

/-- camlistore `lru.Cache.Get`: look a key up and move it to the front. -/
def lruGet (c : BucketCache) (key : String) : Option TokenBucket × BucketCache :=
  match c.find? (fun p => p.1 == key) with
  | some e => (some e.2, e :: c.filter (fun p => ¬ p.1 == key))
  | none => (none, c)

/-- camlistore `lru.Cache.Add`: insert in front, evict beyond capacity. -/
def lruAdd (c : BucketCache) (maxKeys : Nat) (key : String) (tb : TokenBucket) :
    BucketCache :=
  ((key, tb) :: c.filter (fun p => ¬ p.1 == key)).take maxKeys

/-- Nanoseconds per minute. -/
def nsPerMinute : Nat := 60000000000

/-- `MemBucket.wait` (throttle.go lines 312-315): the Go expression is
`int(float64(needed/b.Rate) + float64(needed%b.Rate)*(1e-9/60.0)*60.0)`.
The second summand equals `float64(needed%b.Rate) * 1e-9`; whenever
`0 ≤ needed % rate < 10^9` (every use in this development) it is below
one and vanishes under `int` truncation, so the result is the truncated
integer quotient. -/
def bucketWait (b : MemBucket) (needed : Int) : Int :=
  needed.tdiv b.rate

/-- `MemBucket.fill` (throttle.go lines 317-335): fetch or create the
per-key bucket; a missing key gets a full bucket.  For an existing
bucket below capacity, add `int(float64(Rate) * time.Since(When).Minutes())`
tokens — with the float product modelled exactly as the truncated
rational `rate * elapsedNs / nsPerMinute` — clamped to capacity with
`Min`.  `When` advances to `now` in every case.  Returns the bucket
now stored at the front of the cache together with the new cache. -/
def bucketFill (b : MemBucket) (cache : BucketCache) (key : String) (now : Nat) :
    TokenBucket × BucketCache :=
  match lruGet cache key with
  | (none, _) =>
      let tb : TokenBucket := { tokens := b.size, whenNs := now }
      (tb, lruAdd cache b.maxKeys key tb)
  | (some tb, cache1) =>
      let tb1 :=
        if tb.tokens < b.size then
          let delta : Int := (b.rate * Int.ofNat (now - tb.whenNs)).tdiv (Int.ofNat nsPerMinute)
          { tb with tokens := min b.size (tb.tokens + delta) }
        else tb
      let tb2 := { tb1 with whenNs := now }
      (tb2, lruAdd cache1 b.maxKeys key tb2)

/-- `MemBucket.Consume` (throttle.go lines 293-300): refill lazily, then
either reject (returning the wait estimate for the missing tokens) or
deduct `n` tokens.  The deduction mutates the cached bucket in place in
Go; here the front cache entry is rewritten. -/
def bucketConsume (b : MemBucket) (cache : BucketCache) (key : String) (n : Int)
    (now : Nat) : (Int × Int × Bool) × BucketCache :=
  let (tb, cache1) := bucketFill b cache key now
  if tb.tokens < n then
    ((tb.tokens, bucketWait b (n - tb.tokens), false), cache1)
  else
    let tb1 := { tb with tokens := tb.tokens - n }
    ((tb1.tokens, bucketWait b b.size, true), lruAdd cache1 b.maxKeys key tb1)

/-- Result of the `Usage` filter (src/limits/usage.go lines 62-77) as far
as headers and status are concerned: on a rejected consume it sets
`Retry-After` to the wait estimate and responds 429; on success it sets
the three `RateLimit-*` headers and passes the request through
(`nextRan`). -/
structure UsageResult where
  status : Option Nat
  headers : Headers
  nextRan : Bool
  deriving DecidableEq, Repr

/-- `Usage.Run`: one request against the bucket (key already generated,
ration `n`). -/
def usageRun (b : MemBucket) (cache : BucketCache) (key : String) (n : Int)
    (now : Nat) (h : Headers) : UsageResult × BucketCache :=
  let ((tokens, whenSecs, ok), cache1) := bucketConsume b cache key n now
  if ok then
    ({ status := none,
       headers :=
         hSet (hSet (hSet h "RateLimit-Limit" (toString b.size))
             "RateLimit-Remaining" (toString tokens))
           "RateLimit-Reset" (toString whenSecs),
       nextRan := true }, cache1)
  else
    ({ status := some 429,
       headers := hSet h "Retry-After" (toString whenSecs),
       nextRan := false }, cache1)

/-- The refill formula claim C8 attributes to the code: capacity-clamped
`stored + rate × (whole minutes elapsed)`.  Kept separate from
`bucketFill` so the two can be compared. -/
def claimedRefill (b : MemBucket) (stored : Int) (elapsedNs : Nat) : Int :=
  min b.size (stored + b.rate * Int.ofNat (elapsedNs / nsPerMinute))

/-! ## CORS filter (claim C6)

src/filter_cors.go.  The `strarr` helper library: `Contains` is exact
membership, `Map` is `List.map`, `Diff a b` is the list of elements of
`a` that do not occur in `b` (the usage on line 188, "expose headers
minus the CORS simple set", fixes this orientation). -/

def strarrDiff (a b : List String) : List String :=
  a.filter (fun x => ¬ b.contains x)

def simpleMethods : List String := ["GET", "HEAD", "POST"]

def simpleHeaders : List String :=
  ["Cache-Control", "Content-Language", "Content-Type", "Expires",
   "Last-Modified", "Pragma"]

def allowMethodsDefault : List String := ["GET", "POST", "PATCH", "PUT", "DELETE"]

def allowHeadersDefault : List String :=
  ["Authorization", "Content-Type", "If-Match", "If-Modified-Since",
   "If-None-Match", "If-Unmodified-Since", "X-Requested-With"]

def exposeHeadersDefault : List String :=
  ["Etag", "Link", "RateLimit-Limit", "RateLimit-Remaining",
   "RateLimit-Reset", "X-Poll-Interval"]

/-- `FilterCORS` configuration after the normalisation at the top of
`Run` (defaults substituted, methods uppercased, header names
canonicalised).  Origin patterns are compiled to regexps in Go; origin
matching is abstracted as the `originMatch` parameter of `corsRun`. -/
structure FilterCORS where
  allowAnyOrigin : Bool
  allowMethods : List String
  allowHeaders : List String
  allowCredentials : Bool
  exposeHeaders : List String
  maxAge : Int
  strict : Bool
  hasAllowOrigin : Bool
  deriving DecidableEq, Repr

/-- The default configuration produced by `Run` on a zero-valued filter
with `AllowAnyOrigin = true` (as in the repository examples). -/
def corsDefaultAnyOrigin : FilterCORS :=
  { allowAnyOrigin := true
    allowMethods := allowMethodsDefault
    allowHeaders := allowHeadersDefault
    allowCredentials := false
    exposeHeaders := strarrDiff exposeHeadersDefault simpleHeaders
    maxAge := 86400
    strict := false
    hasAllowOrigin := false }

/-- `FilterCORS.corsHeaders` (filter_cors.go lines 105-122). -/
def corsHeaders (f : FilterCORS) (origin : String) : Headers :=
  if f.allowCredentials then
    hAdd (hSet (hSet [] "Access-Control-Allow-Origin" origin)
        "Access-Control-Allow-Credentials" "true")
      "Vary" "Origin"
  else if f.strict then
    if ¬ f.hasAllowOrigin then hSet [] "Access-Control-Allow-Origin" "null"
    else hAdd (hSet [] "Access-Control-Allow-Origin" origin) "Vary" "Origin"
  else hSet [] "Access-Control-Allow-Origin" "*"

/-- `FilterCORS.handlePreflightRequest` (filter_cors.go lines 126-150),
verbatim: note that the requested-header check returns the 403 error
when `Diff(requested, allowed)` is EMPTY, i.e. when every requested
header is allowed. -/
def handlePreflightRequest (f : FilterCORS) (origin rmethod rheaders : String) :
    Except StatusError Headers :=
  if ¬ simpleMethods.contains rmethod && ¬ f.allowMethods.contains rmethod then
    .error ⟨405, "Invalid method in preflight"⟩
  else
    let headerCheck : Except StatusError Unit :=
      if rheaders ≠ "" then
        let arr := (strSplitChar rheaders ',').map strTrim
        if (strarrDiff arr f.allowHeaders).length == 0 then
          .error ⟨403, "Invalid header in preflight"⟩
        else .ok ()
      else .ok ()
    match headerCheck with
    | .error e => .error e
    | .ok _ =>
        let h0 := corsHeaders f origin
        let h1 := if 0 < f.maxAge then hSet h0 "Access-Control-Max-Age" (toString f.maxAge) else h0
        let h2 :=
          if f.allowMethods ≠ [] then
            hSet h1 "Access-Control-Allow-Methods" (strJoin ", " f.allowMethods)
          else h1
        let h3 :=
          if f.allowHeaders ≠ [] then
            hSet h2 "Access-Control-Allow-Headers" (strJoin ", " f.allowHeaders)
          else h2
        .ok (hSet h3 "Content-Length" "0")

/-- Result of the CORS filter on one request: the response status (when
the filter answered the request itself), the headers it wrote, and
whether the inner handler chain ran. -/
structure CorsResult where
  status : Option Nat
  headers : Headers
  nextRan : Bool
  deriving DecidableEq, Repr

/-- The preflight arm of `FilterCORS.Run` (filter_cors.go lines 237-251),
reached for an OPTIONS request with `Access-Control-Request-Method` set
from an origin that passed the allow check: on a 405 error set `Allow`
from the allowed methods, on any error respond with its code, otherwise
merge the preflight headers and respond 204. -/
def corsPreflightArm (f : FilterCORS) (h : Headers) (origin rmethod rheaders : String) :
    CorsResult :=
  match handlePreflightRequest f origin rmethod rheaders with
  | .error e =>
      let h1 := if e.code == 405 then hSet h "Allow" (strJoin ", " f.allowMethods) else h
      { status := some e.code, headers := h1, nextRan := false }
  | .ok ph =>
      { status := some 204, headers := hMergeInto h ph, nextRan := false }

/-! ## SHA-1 (crypto/sha1, used by the ETag filter)

Executable SHA-1 over byte lists, words as `Nat` reduced mod `2^32`. -/

def w32 (x : Nat) : Nat := x % 4294967296

def rotl32 (n x : Nat) : Nat := w32 ((x <<< n) ||| (x >>> (32 - n)))

/-- Big-endian byte expansion of `v` to `n` bytes. -/
def beBytes : Nat → Nat → List Nat
  | 0, _ => []
  | n + 1, v => beBytes n (v / 256) ++ [v % 256]

/-- SHA-1 padding: a 0x80 byte, zeros to 56 mod 64, then the bit length
as eight big-endian bytes. -/
def sha1Pad (msg : List Nat) : List Nat :=
  let len := msg.length
  let k := (120 - (len + 1) % 64) % 64
  msg ++ [128] ++ List.replicate k 0 ++ beBytes 8 (len * 8)

/-- Pack bytes into big-endian 32-bit words. -/
def bytesToWords : List Nat → List Nat
  | a :: b :: c :: d :: rest => (((a * 256 + b) * 256 + c) * 256 + d) :: bytesToWords rest
  | _ => []

/-- Split a word list into blocks of sixteen (the fuel argument, set to
the list length, only bounds the recursion). -/
def chunk16Aux : Nat → List Nat → List (List Nat)
  | 0, _ => []
  | _, [] => []
  | fuel + 1, w :: ws => (w :: ws).take 16 :: chunk16Aux fuel ((w :: ws).drop 16)

/-- Split a word list into blocks of sixteen. -/
def chunk16 (ws : List Nat) : List (List Nat) :=
  chunk16Aux ws.length ws

/-- Append the next word of the SHA-1 message schedule. -/
def sha1ExtendStep (w : List Nat) : List Nat :=
  w ++ [rotl32 1 ((w.getD (w.length - 3) 0) ^^^ (w.getD (w.length - 8) 0) ^^^
    (w.getD (w.length - 14) 0) ^^^ (w.getD (w.length - 16) 0))]

def sha1F (i b c d : Nat) : Nat :=
  if i < 20 then (b &&& c) ||| ((b ^^^ 4294967295) &&& d)
  else if i < 40 then b ^^^ c ^^^ d
  else if i < 60 then (b &&& c) ||| (b &&& d) ||| (c &&& d)
  else b ^^^ c ^^^ d

def sha1K (i : Nat) : Nat :=
  if i < 20 then 1518500249
  else if i < 40 then 1859775393
  else if i < 60 then 2400959708
  else 3395469782

structure ShaState where
  a : Nat
  b : Nat
  c : Nat
  d : Nat
  e : Nat
  deriving DecidableEq, Repr

def sha1Round (st : ShaState) (i wi : Nat) : ShaState :=
  ⟨w32 (rotl32 5 st.a + sha1F i st.b st.c st.d + st.e + sha1K i + wi),
   st.a, rotl32 30 st.b, st.c, st.d⟩

def sha1Block (h : ShaState) (block : List Nat) : ShaState :=
  let w := sha1ExtendStep^[64] block
  let st := (List.range 80).foldl (fun st i => sha1Round st i (w.getD i 0)) h
  ⟨w32 (h.a + st.a), w32 (h.b + st.b), w32 (h.c + st.c), w32 (h.d + st.d),
   w32 (h.e + st.e)⟩

def sha1Init : ShaState :=
  ⟨1732584193, 4023233417, 2562383102, 271733878, 3285377520⟩

/-- SHA-1 digest (twenty bytes) of a byte list. -/
def sha1 (msg : List Nat) : List Nat :=
  let st := (chunk16 (bytesToWords (sha1Pad msg))).foldl sha1Block sha1Init
  beBytes 4 st.a ++ beBytes 4 st.b ++ beBytes 4 st.c ++ beBytes 4 st.d ++ beBytes 4 st.e

def hexDigit (n : Nat) : Char :=
  if n < 10 then Char.ofNat (48 + n) else Char.ofNat (87 + n)

def hexByte (b : Nat) : String :=
  String.mk [hexDigit (b / 16), hexDigit (b % 16)]

/-- Lowercase hex encoding (`encoding/hex.EncodeToString`). -/
def hexEncode (bs : List Nat) : String :=
  String.join (bs.map hexByte)

/-- ASCII bytes of a string (bodies in this development are ASCII). -/
def strBytes (s : String) : List Nat :=
  s.toList.map Char.toNat

/-! ## Response sink and buffered filters (claims C4, C5)

A `Resp` is the observable state of a response sink: the write-once
status latch, the header map and the body bytes.  It models both the
per-request context over the real response writer and a
`ResponseBuffer`; a filter that buffers runs its inner chain on a fresh
sink whose headers are copied from the outer one (`NewResponseBuffer`)
and later flushes. -/

structure Resp where
  wroteHeader : Bool
  status : Nat
  headers : Headers
  body : List Nat
  deriving DecidableEq, Repr

/-- Write-once status recording (`WriteHeader`). -/
def writeHeaderR (r : Resp) (code : Nat) : Resp :=
  if r.wroteHeader then r else { r with wroteHeader := true, status := code }

/-- `Status()`: 200 until a header is written. -/
def statusR (r : Resp) : Nat :=
  if r.wroteHeader then r.status else 200

/-- A fresh `ResponseBuffer` over `ctx`: headers copied, nothing written. -/
def newBuffer (ctx : Resp) : Resp :=
  { wroteHeader := false, status := 0, headers := ctx.headers, body := [] }

/-- `ResponseBuffer.FlushHeader(w)`: copy the buffered headers into the
target by raw assignment, then forward the recorded status if any. -/
def respFlushHeader (rb ctx : Resp) : Resp :=
  let ctx1 := { ctx with headers := hMergeInto ctx.headers rb.headers }
  if rb.wroteHeader then writeHeaderR ctx1 rb.status else ctx1

/-- `ResponseBuffer.Flush(w)`: headers and status, then the body. -/
def respFlush (rb ctx : Resp) : Resp :=
  let ctx1 := respFlushHeader rb ctx
  { ctx1 with body := ctx1.body ++ rb.body }

/-! ### ETag filter (src/filter/etag/etag.go) -/

def isEtagMethod (m : String) : Bool := m == "GET" || m == "HEAD"

/-- `etagStrongCmp`: exact member match after trimming, rejecting weak
candidate tags. -/
def etagStrongCmp (etags etag : String) : Bool :=
  if etag == "" || strStartsWith etag "W/" then false
  else (strSplitChar etags ',').any (fun v => strTrim v == etag)

/-- Go `strings.Trim(s, "\"")`: drop leading and trailing quote runs. -/
def trimQuotes (s : String) : String :=
  String.mk (((s.toList.dropWhile (fun c => c == '"')).reverse.dropWhile (fun c => c == '"')).reverse)

/-- `etagWeakCmp`: substring containment of the unquoted tag. -/
def etagWeakCmp (etags etag : String) : Bool :=
  if etag == "" then false else strContains etags (trimQuotes etag)

/-- The conditional request headers read by the ETag filter. -/
structure EtagRequest where
  method : String
  ifMatch : String
  ifNoneMatch : String
  ifUnmodifiedSince : String
  ifModifiedSince : String
  deriving DecidableEq, Repr

/-- A request with no conditional headers. -/
def plainRequest (m : String) : EtagRequest :=
  { method := m, ifMatch := "", ifNoneMatch := "", ifUnmodifiedSince := "",
    ifModifiedSince := "" }

/-- The tag generated at etag.go lines 69-80: quoted lowercase hex SHA-1
of the buffered body, with `-<content-encoding>` appended inside the
quotes when the buffer has a Content-Encoding. -/
def generatedTag (body : List Nat) (contentEncoding : String) : String :=
  let alter := if contentEncoding ≠ "" then "-" ++ contentEncoding else ""
  "\"" ++ hexEncode (sha1 body) ++ alter ++ "\""

/-- The `Finish:` label of the filter: publish the tag (if any) on the
buffer and flush it to the outer sink. -/
def etagFinish (etag : String) (rb ctx : Resp) : Resp :=
  if etag ≠ "" then
    respFlush { rb with headers := hAdd (hSet rb.headers "ETag" etag) "Vary" "If-None-Match" } ctx
  else respFlush rb ctx

/-- `etag.Filter.Run` (etag.go lines 51-152).  `next` is the downstream
chain writing into the fresh buffer; `parseDate` abstracts
`time.Parse(http.TimeFormat, ...)`, returning `none` for a parse error
or the zero time.  The two 412 arms free the buffer, so the deferred
flush of the freed buffer transfers nothing. -/
def etagRun (disableConditionals : Bool) (parseDate : String → Option Int)
    (req : EtagRequest) (next : Resp → Resp) (ctx : Resp) : Resp :=
  let rb := next (newBuffer ctx)
  let st := statusR rb
  if st < 200 || st == 204 || (st > 299 && st ≠ 412) ||
      ¬ strContains "DELETE GET HEAD PATCH POST PUT" req.method then
    respFlush rb ctx
  else
    let etag0 := hGet rb.headers "ETag"
    let etag :=
      if isEtagMethod req.method && st == 200 && etag0 == "" then
        generatedTag rb.body (hGet rb.headers "Content-Encoding")
      else etag0
    if disableConditionals then etagFinish etag rb ctx
    else
      let ifmatch := req.ifMatch
      if ifmatch ≠ "" && ((ifmatch == "*" && etag == "") || ¬ etagStrongCmp ifmatch etag) then
        writeHeaderR ctx 412
      else
        let unmodFail :=
          ifmatch == "" && req.ifUnmodifiedSince ≠ "" &&
            (match parseDate req.ifUnmodifiedSince,
                parseDate (hGet rb.headers "Last-Modified") with
             | some modtime, some lastmod => decide (modtime < lastmod)
             | _, _ => false)
        if unmodFail then writeHeaderR ctx 412
        else
          let ifnone := req.ifNoneMatch
          if ifnone ≠ "" && ((ifnone == "*" && etag ≠ "") || etagWeakCmp ifnone etag) then
            if isEtagMethod req.method then
              let rb1 := { rb with headers := hAdd (hSet rb.headers "ETag" etag) "Vary" "If-None-Match" }
              respFlush { writeHeaderR rb1 304 with body := [] } ctx
            else writeHeaderR ctx 412
          else
            let modHit :=
              ifnone == "" && req.ifModifiedSince ≠ "" && ¬ isEtagMethod req.method &&
                (match parseDate req.ifModifiedSince,
                    parseDate (hGet rb.headers "Last-Modified") with
                 | some modtime, some lastmod => decide (lastmod ≤ modtime)
                 | _, _ => false)
            if modHit then
              let rbA :=
                if etag ≠ "" then
                  { rb with headers := hAdd (hSet rb.headers "ETag" etag) "Vary" "If-None-Match" }
                else rb
              let rbB := { rbA with headers := hAdd rbA.headers "Vary" "If-Modified-Since" }
              respFlush { writeHeaderR rbB 304 with body := [] } ctx
            else etagFinish etag rb ctx

/-! ### Gzip filter (src/filter/gzip/gzip.go) -/

/-- Request headers read by the gzip filter. -/
structure GzipRequest where
  acceptEncoding : String
  ifRange : String
  deriving DecidableEq, Repr

/-- Go `strings.TrimSuffix(s, "\"")`. -/
def trimSuffixQuote (s : String) : String :=
  if (s.toList.getLastD ' ') == '"' then String.mk s.toList.dropLast else s

/-- The ETag rewrite at gzip.go lines 102-105: append `-gzip` inside the
closing quote unless the tag already mentions gzip. -/
def gzipRewriteTag (etag : String) : String :=
  trimSuffixQuote etag ++ "-gzip\""

/-- `gzip.Filter.Run` (gzip.go lines 35-112) after the `Run`-time
defaulting of `CompressionLevel` and `MinLength`.  `compress` abstracts
the `compress/gzip` codec and `prefSkip` abstracts the
quality-preference branch at lines 59-71, whose `float32` comparisons
are outside this embedding; both are environment parameters the claims
quantify over.  Returns the outer sink after the filter and the
`content.gzip` info flag (set only when compression actually ran). -/
def gzipRun (minLength : Nat) (compress : List Nat → List Nat)
    (prefSkip : String → Bool) (req : GzipRequest) (next : Resp → Resp)
    (ctx : Resp) : Resp × Bool :=
  let ctx := { ctx with headers := hAdd ctx.headers "Vary" "Accept-Encoding" }
  let encodings := req.acceptEncoding
  if ¬ (strContains encodings "gzip" || encodings == "*") then (next ctx, false)
  else if req.ifRange ≠ "" then (next ctx, false)
  else if prefSkip encodings then (next ctx, false)
  else
    let rb := next (newBuffer ctx)
    let st := statusR rb
    if st == 304 then (respFlush rb (writeHeaderR ctx 304), false)
    else if st == 204 || st > 299 || st < 200 then (respFlush rb ctx, false)
    else if hGet rb.headers "Content-Range" ≠ "" then (respFlush rb ctx, false)
    else if strContains (hGet rb.headers "Content-Encoding") "gzip" then (respFlush rb ctx, false)
    else if rb.body.length < minLength then (respFlush rb ctx, false)
    else
      let rb1 := { rb with headers := hAdd rb.headers "Content-Encoding" "gzip" }
      let etag := hGet rb1.headers "ETag"
      let rb2 :=
        if etag ≠ "" && ¬ strContains etag "gzip" then
          { rb1 with headers := hSet rb1.headers "ETag" (gzipRewriteTag etag) }
        else rb1
      let ctx1 := respFlushHeader rb2 ctx
      ({ ctx1 with body := ctx1.body ++ compress rb2.body }, true)

/-- The composed pipeline the repository examples install: the gzip
filter outermost, the ETag filter inside it, then the handler (filters
added first run outermost; `Use(&FilterETag{})` style setups place ETag
inside gzip).  Returns the final response and whether the body was
gzip-compressed. -/
def gzipEtagPipeline (minLength : Nat) (compress : List Nat → List Nat)
    (prefSkip : String → Bool) (parseDate : String → Option Int)
    (greq : GzipRequest) (ereq : EtagRequest) (next : Resp → Resp)
    (ctx : Resp) : Resp × Bool :=
  gzipRun minLength compress prefSkip greq
    (fun sink => etagRun false parseDate ereq next sink) ctx

/-! ## Router (claims C1, C2)

Embedding of `trieRegexpRouter` (src/unnamed/part_008 lines 199-438, the
copy whose `FindHandler(*Context)`/`PathMethods` signatures are the ones
`Service.dispatch` in src/service.go calls; an older duplicate in
src/router.go differs only in giving `ErrRouteBadMethod` code 501).
Go map iteration over `links` is modelled as insertion order; the
regexp engine (`segmentExp` / `FindStringSubmatch` / `SubexpNames`) is
abstracted as a `RegexpEngine` keyed by the original segment pattern.
A pattern has a compiled entry in `pathRegexpCache` exactly when it
contains matching braces or a star, which is how `matchSegment` decides
which links are expression links. -/

/-- The routing errors of part_008 lines 199-205. -/
def ErrRouteNotFound : StatusError := ⟨404, "That route was not found."⟩

def ErrRouteBadMethod : StatusError := ⟨405, "That method is not supported"⟩

/-- A segment is registered in the regexp cache iff it contains `{` and
`}`, or `*` (AddRoute lines 317-320). -/
def isExpSeg (s : String) : Bool :=
  (strContains s "\x7b" && strContains s "\x7d") || strContains s "*"

/-- Trie node: optional handler (handlers are identified by numbers),
count of expression links added below this node, depth, and the link
map in insertion order. -/
inductive TrieNode where
  | mk (handler : Option Nat) (numExp : Nat) (depth : Nat)
      (links : List (String × TrieNode))

def TrieNode.handler : TrieNode → Option Nat
  | .mk h _ _ _ => h

def TrieNode.numExp : TrieNode → Nat
  | .mk _ n _ _ => n

def TrieNode.depth : TrieNode → Nat
  | .mk _ _ d _ => d

def TrieNode.links : TrieNode → List (String × TrieNode)
  | .mk _ _ _ ls => ls

/-- Go map read `links[k]`. -/
def linksGet (ls : List (String × TrieNode)) (k : String) : Option TrieNode :=
  match ls.find? (fun p => p.1 == k) with
  | some p => some p.2
  | none => none

/-- Go map write `links[k] = n`: update in place, append when new. -/
def linksSet (ls : List (String × TrieNode)) (k : String) (n : TrieNode) :
    List (String × TrieNode) :=
  match ls with
  | [] => [(k, n)]
  | (k1, n1) :: t => if k1 == k then (k, n) :: t else (k1, n1) :: linksSet t k n

/-- The insertion loop of `AddRoute` (part_008 lines 313-337): walk the
segment list, bumping `numExp` on the parent of every expression
segment (on every call, matching the Go code), creating missing
children with `depth+1`, and setting the handler at the terminal
node. -/
def trieInsert : TrieNode → List String → Nat → TrieNode
  | node, [], h => .mk (some h) node.numExp node.depth node.links
  | node, s :: rest, h =>
      let numExp1 := if isExpSeg s then node.numExp + 1 else node.numExp
      let child :=
        match linksGet node.links s with
        | some c => c
        | none => .mk none 0 (node.depth + 1) []
      .mk node.handler numExp1 node.depth
        (linksSet node.links s (trieInsert child rest h))

structure TrieRouter where
  root : TrieNode
  methods : List String

/-- `newRouter`. -/
def newRouter : TrieRouter := ⟨.mk none 0 0 [], []⟩

/-- `AddRoute`: insert the canonical segment list and record the method
(part_008 lines 339-342 test membership by substring search over the
comma-joined method list, quirk preserved). -/
def addRoute (r : TrieRouter) (method path : String) (h : Nat) : TrieRouter :=
  { root := trieInsert r.root (routeSegs method path) h
    methods :=
      if ¬ strContains (strJoin "," r.methods) method then r.methods ++ [method]
      else r.methods }

/-- Fold a registration sequence over a fresh router. -/
def buildRouter (regs : List (String × String × Nat)) : TrieRouter :=
  regs.foldl (fun r q => addRoute r q.1 q.2.1 q.2.2) newRouter

/-- `url.Values` for path captures. -/
abbrev PathValues := List (String × List String)

def vSet (vs : PathValues) (k v : String) : PathValues := hSet vs k v

def vAdd (vs : PathValues) (k v : String) : PathValues := hAdd vs k v

/-- Abstraction of the compiled regexp for a segment pattern: `find`
is `FindStringSubmatch` (the whole-match text first, then the
submatches) and `subNames` is `SubexpNames`. -/
structure RegexpEngine where
  find : String → String → Option (List String)
  subNames : String → List String

/-- An engine under which no expression segment matches anything; used
to instantiate closed theorems about purely literal routes. -/
def noMatchEngine : RegexpEngine :=
  { find := fun _ _ => none, subNames := fun _ => [] }

/-- The capture-recording loop of `matchSegment` (lines 363-377): each
submatch is stored under its positional key `_N` and additionally under
its subexpression name when named. -/
def recordValues (sub m : List String) (values : PathValues) : PathValues :=
  let n := values.length / 2
  (List.range (m.length - 1)).foldl
    (fun vs j =>
      let i := j + 1
      let vs1 := vSet vs ("_" ++ toString (n + i)) (m.getD i "")
      let nm := sub.getD i ""
      if nm ≠ "" then vAdd vs1 nm (m.getD i "") else vs1)
    values

/-- The expression-link loop of `matchSegment` (lines 352-380): try the
links in order, skipping non-expression links (no cached regexp) and
expression leaves shallower than the request, and return the first
child whose regexp consumes the whole segment. -/
def matchExpLinks (eng : RegexpEngine) (ls : List (String × TrieNode))
    (pseg : String) (depth : Nat) (values : PathValues) :
    Option (TrieNode × PathValues) :=
  match ls with
  | [] => none
  | (pexp, child) :: rest =>
      if ¬ isExpSeg pexp then matchExpLinks eng rest pseg depth values
      else if depth > child.depth && child.links.isEmpty then
        matchExpLinks eng rest pseg depth values
      else
        match eng.find pexp pseg with
        | some m =>
            if m.length > 1 && m.headD "" == pseg then
              some (child, recordValues (eng.subNames pexp) m values)
            else matchExpLinks eng rest pseg depth values
        | none => matchExpLinks eng rest pseg depth values

/-- `trieNode.matchSegment` (lines 348-382): plain lookup when the node
has no expression links, otherwise the expression loop with a literal
fallback. -/
def matchSegment (eng : RegexpEngine) (node : TrieNode) (pseg : String)
    (depth : Nat) (values : PathValues) : Option TrieNode × PathValues :=
  if node.numExp == 0 then (linksGet node.links pseg, values)
  else
    match matchExpLinks eng node.links pseg depth values with
    | some (c, vs) => (some c, vs)
    | none => (linksGet node.links pseg, values)

/-- The traversal loop of `FindHandler` (lines 394-402): `i` counts the
segments already consumed; reaching a nil node with `i ≤ 1` means the
method segment failed. -/
def walkSegs (eng : RegexpEngine) :
    Option TrieNode → List String → Nat → Nat → PathValues →
    Except StatusError (Option TrieNode × PathValues)
  | node, [], _, _, vs => .ok (node, vs)
  | none, _ :: _, i, _, _ =>
      .error (if i ≤ 1 then ErrRouteBadMethod else ErrRouteNotFound)
  | some n, s :: rest, i, slen, vs =>
      let r := matchSegment eng n s slen vs
      walkSegs eng r.1 rest (i + 1) slen r.2

/-- `FindHandler` (lines 386-408): HEAD matches as GET; walk the trie
over the canonical request segments and return the terminal handler or
a routing error. -/
def findHandler (eng : RegexpEngine) (r : TrieRouter) (method path : String)
    (values : PathValues) : Except StatusError (Nat × PathValues) :=
  let m1 := if method == "HEAD" then "GET" else method
  let pseg := routeSegs m1 path
  match walkSegs eng (some r.root) pseg 0 pseg.length values with
  | .error e => .error e
  | .ok (node, vs) =>
      match node with
      | none => .error ErrRouteNotFound
      | some n =>
          match n.handler with
          | none => .error ErrRouteNotFound
          | some h => .ok (h, vs)

/-- The inner loop of `PathMethods` (lines 421-426): a nil node is
carried through the remaining segments by `continue`. -/
def walkPM (eng : RegexpEngine) :
    Option TrieNode → List String → Nat → Option TrieNode
  | node, [], _ => node
  | none, _ :: rest, slen => walkPM eng none rest slen
  | some n, s :: rest, slen => walkPM eng (matchSegment eng n s slen []).1 rest slen

/-- `PathMethods` (lines 413-433): try every recorded method in the
first segment slot and collect the ones whose walk ends at a handler;
always starts with HEAD. -/
def pathMethods (eng : RegexpEngine) (r : TrieRouter) (path : String) : String :=
  let pseg0 := strSplitChar ("*" ++ trimRightSlash path) '/'
  let slen := pseg0.length
  r.methods.foldl
    (fun acc method =>
      match walkPM eng (some r.root) (method :: pseg0.drop 1) slen with
      | some n => if n.handler.isSome then acc ++ ", " ++ method else acc
      | none => acc)
    "HEAD"

/-- `Service.dispatch` (src/service.go lines 147-158) restricted to its
observable routing effect: on an error set the short `Cache-Control`,
additionally set `Allow` from `PathMethods` when the error is
`ErrRouteBadMethod`, and respond with the error code; otherwise hand the
request to the found handler. -/
def dispatch (eng : RegexpEngine) (r : TrieRouter) (method path : String)
    (values : PathValues) (h : Headers) :
    Headers × Except StatusError (Nat × PathValues) :=
  match findHandler eng r method path values with
  | .error e =>
      let h1 := hSet h "Cache-Control" "max-age=300, stale-if-error=600"
      let h2 := if e = ErrRouteBadMethod then hSet h1 "Allow" (pathMethods eng r path) else h1
      (h2, .error e)
  | .ok hv => (h, .ok hv)

/-- The handler most recently registered under a canonical segment
key. -/
def lastHandlerFor (regs : List (String × String × Nat)) (ks : List String) :
    Option Nat :=
  regs.foldl (fun acc q => if routeSegs q.1 q.2.1 = ks then some q.2.2 else acc) none

/-- Follow exact link labels through the trie. -/
def trieLookup : TrieNode → List String → Option TrieNode
  | n, [] => some n
  | n, s :: rest =>
      match linksGet n.links s with
      | some c => trieLookup c rest
      | none => none

/-- Acceptance of one request segment by one template segment: either a
literal label equal to the segment, or an expression label whose
compiled regexp consumes the whole segment with at least one
submatch. -/
def acceptSeg (eng : RegexpEngine) (lbl seg : String) : Prop :=
  lbl = seg ∨
    (isExpSeg lbl = true ∧
      ∃ m, eng.find lbl seg = some m ∧ 1 < m.length ∧ m.headD "" = seg)

/-- Well-formedness of a trie: every link list binds each label once.
This holds for every trie built by `AddRoute` and lets the first-match
loop of `matchSegment` be read back as a map lookup. -/
inductive TrieWF : TrieNode → Prop where
  | mk {h ne d} {ls : List (String × TrieNode)} :
      (ls.map Prod.fst).Nodup → (∀ p ∈ ls, TrieWF p.2) →
      TrieWF (.mk h ne d ls)

/-- The handler stored at the node reached by exact labels `ks`. -/
def handlerAt (n : TrieNode) (ks : List String) : Option Nat :=
  (trieLookup n ks).bind TrieNode.handler

/-- The canonical segment list `FindHandler` walks for a request (HEAD
resolves as GET). -/
def requestSegs (m p : String) : List String :=
  routeSegs (if m == "HEAD" then "GET" else m) p

/-- A pristine response sink. -/
def emptyResp : Resp := ⟨false, 0, [], []⟩

/-! # Theorems -/

/-- C3: on both `Context` and `ResponseBuffer`, only the first
`WriteHeader` call takes effect: from an unwritten state it records the
code (and the context forwards it exactly once to the underlying
writer), and any subsequent `WriteHeader` on the resulting value is a
no-op. -/
theorem writeHeader_first_call_wins (c : CtxWriter) (b : BufWriter) (a x : Nat) :
    (c.wroteHeader = false →
      (ctxWriteHeader c a).status = a ∧ (ctxWriteHeader c a).wroteHeader = true ∧
      (ctxWriteHeader c a).forwarded = c.forwarded ++ [a]) ∧
    ctxWriteHeader (ctxWriteHeader c a) x = ctxWriteHeader c a ∧
    (b.wroteHeader = false →
      (bufWriteHeader b a).status = a ∧ (bufWriteHeader b a).wroteHeader = true) ∧
    bufWriteHeader (bufWriteHeader b a) x = bufWriteHeader b a := by
  refine ⟨fun hc => ?_, ?_, fun hb => ?_, ?_⟩
  · simp [ctxWriteHeader, hc]
  · by_cases hc : c.wroteHeader <;> simp [ctxWriteHeader, hc]
  · simp [bufWriteHeader, hb]
  · by_cases hb : b.wroteHeader <;> simp [bufWriteHeader, hb]

/-- Witness for `writeHeader_first_call_wins` at a fresh context and
buffer, first writing 201 and then attempting 404. -/
theorem writeHeader_first_call_wins_witness :
    (ctxWriteHeader ⟨false, 0, []⟩ 201).status = 201 ∧
    ctxWriteHeader (ctxWriteHeader ⟨false, 0, []⟩ 201) 404 = ctxWriteHeader ⟨false, 0, []⟩ 201 ∧
    (bufWriteHeader ⟨false, 0⟩ 201).status = 201 ∧
    bufWriteHeader (bufWriteHeader ⟨false, 0⟩ 201) 404 = bufWriteHeader ⟨false, 0⟩ 201 :=
  ⟨((writeHeader_first_call_wins ⟨false, 0, []⟩ ⟨false, 0⟩ 201 404).1 rfl).1,
   (writeHeader_first_call_wins ⟨false, 0, []⟩ ⟨false, 0⟩ 201 404).2.1,
   ((writeHeader_first_call_wins ⟨false, 0, []⟩ ⟨false, 0⟩ 201 404).2.2.1 rfl).1,
   (writeHeader_first_call_wins ⟨false, 0, []⟩ ⟨false, 0⟩ 201 404).2.2.2⟩

/-- C9: when the bound encoder fails, `Context.Respond` panics with the
encoder error instead of returning it, and the adapter recovery turns
the panic into a 500 response; a successful encode returns a nil
error. -/
theorem respond_encode_error_panics (e : String) (ctx : CtxState) (bs : List Nat)
    (h : ctx.w.wroteHeader = false) :
    respond (.error e) none ctx = .panicked e ∧
    (adapterRecover (respond (.error e) none ctx) ctx).w.status = 500 ∧
    (adapterRecover (respond (.error e) none ctx) ctx).w.wroteHeader = true ∧
    (∃ c2, respond (.ok bs) none ctx = .ok (c2, none)) := by
  refine ⟨rfl, ?_, ?_, ⟨_, rfl⟩⟩ <;> simp [respond, adapterRecover, ctxWriteHeader, h]

/-- Witness for `respond_encode_error_panics` at a fresh context. -/
theorem respond_encode_error_panics_witness :
    respond (.error "boom") none ⟨⟨false, 0, []⟩, [], []⟩ = .panicked "boom" ∧
    (adapterRecover (respond (.error "boom") none ⟨⟨false, 0, []⟩, [], []⟩)
        ⟨⟨false, 0, []⟩, [], []⟩).w.status = 500 :=
  ⟨(respond_encode_error_panics "boom" ⟨⟨false, 0, []⟩, [], []⟩ [] rfl).1,
   (respond_encode_error_panics "boom" ⟨⟨false, 0, []⟩, [], []⟩ [] rfl).2.1⟩

set_option maxRecDepth 8000 in
/-- C7: `NewRequestID` keeps a valid-charactered id of 201 characters
(the 200-character upper bound of its own documentation is dead code),
rejects a valid 20-character id (the documented lower bound is off by
one), and keeps a 21-character id. -/
theorem newRequestID_length_bounds_bug :
    newRequestID (String.mk (List.replicate 201 'a')) =
      some (String.mk (List.replicate 201 'a')) ∧
    newRequestID (String.mk (List.replicate 20 'a')) = none ∧
    newRequestID (String.mk (List.replicate 21 'a')) =
      some (String.mk (List.replicate 21 'a')) := by
  exact ⟨rfl, rfl, rfl⟩

/-- C10: consuming `n` tokens (0 < n ≤ capacity) under a key that is not
in the LRU cache always succeeds: the bucket is created full, so exactly
`capacity - n` tokens remain. -/
theorem memBucket_new_key_full (b : MemBucket) (cache : BucketCache) (key : String)
    (n : Int) (now : Nat) (habs : cache.find? (fun p => p.1 == key) = none)
    (_hn : 0 < n) (hcap : n ≤ b.size) :
    (bucketConsume b cache key n now).1 = (b.size - n, bucketWait b b.size, true) := by
  have hlt : ¬ b.size < n := not_lt.mpr hcap
  simp [bucketConsume, bucketFill, lruGet, habs, hlt]

/-- Witness for `memBucket_new_key_full`: capacity 2, rate 1, first
consume of one token leaves one token. -/
theorem memBucket_new_key_full_witness :
    (bucketConsume ⟨2, 1, 1000⟩ [] "k" 1 0).1 = (1, 2, true) :=
  memBucket_new_key_full ⟨2, 1, 1000⟩ [] "k" 1 0 rfl (by decide) (by decide)

/-- C8 counterexample: with rate 2 per minute and 30 seconds elapsed,
the code credits `int(2 × 0.5) = 1` token, while the claimed formula
"rate times the whole minutes elapsed" credits `2 × 0 = 0`. -/
theorem memBucket_refill_not_whole_minutes :
    ((bucketFill ⟨10, 2, 100⟩ [("k", ⟨0, 0⟩)] "k" 30000000000).1.tokens = 1) ∧
    claimedRefill ⟨10, 2, 100⟩ 0 30000000000 = 0 := by
  constructor
  · rfl
  · rfl

/-- C8 (amended): the refill is lazy and credits the truncated product
`⌊rate × minutes-elapsed⌋` over the fractional minutes since the last
check, clamped to capacity; and a capacity-2, rate-1/min bucket answers
three back-to-back one-token consumes with remaining 1 (accepted),
remaining 0 (accepted), and a rejection whose wait estimate is the
strictly positive 1, which the Usage filter turns into a 429 response
with a positive Retry-After header. -/
theorem memBucket_lazy_refill_scenario :
    (∀ (b : MemBucket) (cache : BucketCache) (key : String) (tb : TokenBucket) (now : Nat),
      cache.find? (fun p => p.1 == key) = some (key, tb) →
      tb.tokens ≤ b.size → 0 ≤ b.rate →
      (bucketFill b cache key now).1 =
        ⟨min b.size
          (tb.tokens + (b.rate * Int.ofNat (now - tb.whenNs)).tdiv (Int.ofNat nsPerMinute)),
         now⟩) ∧
    ((bucketConsume ⟨2, 1, 1000⟩ [] "k" 1 0).1 = (1, 2, true) ∧
     (bucketConsume ⟨2, 1, 1000⟩ (bucketConsume ⟨2, 1, 1000⟩ [] "k" 1 0).2 "k" 1 0).1 =
       (0, 2, true) ∧
     (bucketConsume ⟨2, 1, 1000⟩
        (bucketConsume ⟨2, 1, 1000⟩ (bucketConsume ⟨2, 1, 1000⟩ [] "k" 1 0).2 "k" 1 0).2
        "k" 1 0).1 = (0, 1, false) ∧
     (0 : Int) < 1 ∧
     (usageRun ⟨2, 1, 1000⟩
        (bucketConsume ⟨2, 1, 1000⟩ (bucketConsume ⟨2, 1, 1000⟩ [] "k" 1 0).2 "k" 1 0).2
        "k" 1 0 []).1.status = some 429 ∧
     hGet (usageRun ⟨2, 1, 1000⟩
        (bucketConsume ⟨2, 1, 1000⟩ (bucketConsume ⟨2, 1, 1000⟩ [] "k" 1 0).2 "k" 1 0).2
        "k" 1 0 []).1.headers "Retry-After" = "1") := by
  constructor
  · intro b cache key tb now hfind hcap hrate
    simp only [bucketFill, lruGet, hfind]
    by_cases hlt : tb.tokens < b.size
    · simp [hlt]
    · have heq : tb.tokens = b.size := le_antisymm hcap (not_lt.mp hlt)
      have hdelta : (0 : Int) ≤
          (b.rate * ((now - tb.whenNs : Nat) : Int)).tdiv ((nsPerMinute : Nat) : Int) := by
        apply Int.tdiv_nonneg
        · exact mul_nonneg hrate (Int.ofNat_nonneg _)
        · exact Int.ofNat_nonneg _
      have hmin : min b.size
          (tb.tokens + (b.rate * ((now - tb.whenNs : Nat) : Int)).tdiv ((nsPerMinute : Nat) : Int))
          = tb.tokens := by
        rw [heq]
        exact min_eq_left (le_add_of_nonneg_right hdelta)
      simp [hlt, hmin]
  · exact ⟨rfl, rfl, rfl, by decide, rfl, rfl⟩

/-- Witness for `memBucket_lazy_refill_scenario`: an existing key with
one token and 90 seconds elapsed at rate 1 refills to two tokens. -/
theorem memBucket_lazy_refill_scenario_witness :
    (bucketFill ⟨2, 1, 1000⟩ [("k", ⟨1, 0⟩)] "k" 90000000000).1 =
      ⟨min 2 (1 + ((1 : Int) * Int.ofNat 90000000000).tdiv (Int.ofNat nsPerMinute)), 90000000000⟩ :=
  memBucket_lazy_refill_scenario.1 ⟨2, 1, 1000⟩ [("k", ⟨1, 0⟩)] "k" ⟨1, 0⟩ 90000000000
    rfl (by decide) (by decide)

/-- C6: with the default (normalised) configuration and an allowed
origin, the preflight arm answers 403 to a request whose requested
headers are ALL in the allowed list and 204 when a header NOT in the
allowed list is requested: the `len(Diff) == 0` check at
filter_cors.go:132 is inverted.  The method check behaves as claimed,
answering 405 for a method outside simple ∪ allowed. -/
theorem corsPreflight_inverted_header_check :
    (corsPreflightArm corsDefaultAnyOrigin [] "http://a.example.com" "PUT" "Content-Type").status
      = some 403 ∧
    (corsPreflightArm corsDefaultAnyOrigin [] "http://a.example.com" "PUT" "X-Evil-Header").status
      = some 204 ∧
    allowHeadersDefault.contains "Content-Type" = true ∧
    allowHeadersDefault.contains "X-Evil-Header" = false ∧
    (corsPreflightArm corsDefaultAnyOrigin [] "http://a.example.com" "TRACE" "").status
      = some 405 ∧
    hGet (corsPreflightArm corsDefaultAnyOrigin [] "http://a.example.com" "TRACE" "").headers
      "Allow" = "GET, POST, PATCH, PUT, DELETE" ∧
    (corsPreflightArm corsDefaultAnyOrigin [] "http://a.example.com" "PUT" "").status
      = some 204 ∧
    hGet (corsPreflightArm corsDefaultAnyOrigin [] "http://a.example.com" "PUT" "").headers
      "Content-Length" = "0" ∧
    hGet (corsPreflightArm corsDefaultAnyOrigin [] "http://a.example.com" "PUT" "").headers
      "Access-Control-Max-Age" = "86400" := by
  refine ⟨rfl, rfl, rfl, rfl, rfl, rfl, rfl, rfl, rfl⟩

/-! ### Header map lemmas -/

theorem find?_hSet_self (h : Headers) (k v : String) :
    List.find? (fun p => p.1 == k) (hSet h k v) = some (k, [v]) := by
  induction h with
  | nil => simp [hSet]
  | cons p t ih =>
    by_cases hp : p.1 == k
    · simp [hSet, hp, List.find?]
    · simp only [hSet, hp, if_false]
      simpa [List.find?, hp] using ih

theorem hGet_hSet_self (h : Headers) (k v : String) : hGet (hSet h k v) k = v := by
  simp [hGet, find?_hSet_self]

theorem hValues_hSet_self (h : Headers) (k v : String) :
    hValues (hSet h k v) k = [v] := by
  simp [hValues, find?_hSet_self]

theorem hHas_hSet_self (h : Headers) (k v : String) : hHas (hSet h k v) k = true := by
  induction h with
  | nil => simp [hSet, hHas]
  | cons p t ih =>
    by_cases hp : p.1 == k
    · simp [hSet, hp, hHas]
    · simp only [hSet, hp, if_false]
      simpa [hHas, hp] using ih

theorem find?_hSet_ne (h : Headers) (k v k' : String) (hne : k' ≠ k) :
    List.find? (fun p => p.1 == k') (hSet h k v) = List.find? (fun p => p.1 == k') h := by
  have hkk : ((k : String) == k') = false := by
    simp only [beq_eq_false_iff_ne, ne_eq]
    exact fun hc => hne hc.symm
  induction h with
  | nil => simp [hSet, List.find?, hkk]
  | cons p t ih =>
    by_cases hp : p.1 == k
    · have hpk : p.1 = k := by simpa using hp
      have hp' : (p.1 == k') = false := by
        rw [hpk]
        exact hkk
      simp [hSet, hp, List.find?, hkk, hp']
    · simp only [hSet, hp, if_false]
      by_cases hq : p.1 == k'
      · simp [List.find?, hq]
      · simpa [List.find?, hq] using ih

theorem hGet_hSet_ne (h : Headers) (k v k' : String) (hne : k' ≠ k) :
    hGet (hSet h k v) k' = hGet h k' := by
  simp [hGet, find?_hSet_ne h k v k' hne]

theorem hValues_hSet_ne (h : Headers) (k v k' : String) (hne : k' ≠ k) :
    hValues (hSet h k v) k' = hValues h k' := by
  simp [hValues, find?_hSet_ne h k v k' hne]

theorem find?_hAdd_self (h : Headers) (k v : String) :
    List.find? (fun p => p.1 == k) (hAdd h k v) = some (k, hValues h k ++ [v]) := by
  induction h with
  | nil => simp [hAdd, hValues]
  | cons p t ih =>
    by_cases hp : p.1 == k
    · have hpk : p.1 = k := by simpa using hp
      simp [hAdd, hp, List.find?, hValues, hpk]
    · simp only [hAdd, hp, if_false]
      simpa [List.find?, hp, hValues] using ih

theorem hValues_hAdd_self (h : Headers) (k v : String) :
    hValues (hAdd h k v) k = hValues h k ++ [v] := by
  simp [hValues, find?_hAdd_self]

theorem find?_hAdd_ne (h : Headers) (k v k' : String) (hne : k' ≠ k) :
    List.find? (fun p => p.1 == k') (hAdd h k v) = List.find? (fun p => p.1 == k') h := by
  have hkk : ((k : String) == k') = false := by
    simp only [beq_eq_false_iff_ne, ne_eq]
    exact fun hc => hne hc.symm
  induction h with
  | nil => simp [hAdd, List.find?, hkk]
  | cons p t ih =>
    by_cases hp : p.1 == k
    · have hpk : p.1 = k := by simpa using hp
      have hp' : (p.1 == k') = false := by
        rw [hpk]
        exact hkk
      simp [hAdd, hp, List.find?, hp']
    · simp only [hAdd, hp, if_false]
      by_cases hq : p.1 == k'
      · simp [List.find?, hq]
      · simpa [List.find?, hq] using ih

theorem hGet_hAdd_ne (h : Headers) (k v k' : String) (hne : k' ≠ k) :
    hGet (hAdd h k v) k' = hGet h k' := by
  simp [hGet, find?_hAdd_ne h k v k' hne]

theorem hValues_hAdd_ne (h : Headers) (k v k' : String) (hne : k' ≠ k) :
    hValues (hAdd h k v) k' = hValues h k' := by
  simp [hValues, find?_hAdd_ne h k v k' hne]

theorem hHas_hAdd_self (h : Headers) (k v : String) : hHas (hAdd h k v) k = true := by
  induction h with
  | nil => simp [hAdd, hHas]
  | cons p t ih =>
    by_cases hp : p.1 == k
    · simp [hAdd, hp, hHas]
    · simp only [hAdd, hp, if_false]
      simpa [hHas, hp] using ih

theorem hHas_iff_find? (h : Headers) (k : String) :
    hHas h k = (List.find? (fun p => p.1 == k) h).isSome := by
  induction h with
  | nil => rfl
  | cons p t ih =>
    cases hp : p.1 == k with
    | true => simp [hHas, List.any_cons, hp, List.find?]
    | false => simpa [hHas, List.any_cons, hp, List.find?] using ih

theorem hHas_hSet_ne (h : Headers) (k v k' : String) (hne : k' ≠ k) :
    hHas (hSet h k v) k' = hHas h k' := by
  rw [hHas_iff_find?, hHas_iff_find?, find?_hSet_ne h k v k' hne]

theorem hHas_hAdd_ne (h : Headers) (k v k' : String) (hne : k' ≠ k) :
    hHas (hAdd h k v) k' = hHas h k' := by
  rw [hHas_iff_find?, hHas_iff_find?, find?_hAdd_ne h k v k' hne]

theorem hGet_ne_empty_hHas (h : Headers) (k : String) (hne : hGet h k ≠ "") :
    hHas h k = true := by
  rw [hHas_iff_find?]
  cases hf : List.find? (fun p => p.1 == k) h with
  | none =>
    exfalso
    apply hne
    simp [hGet, hf]
  | some p => rfl

/-! ### Header merge lemmas (`FlushHeader`) -/

/-- One step of the merge loop. -/
theorem find?_mergeStep_ne (dst : Headers) (e : String × List String) (k : String)
    (hne : ¬ e.1 = k) :
    List.find? (fun p => p.1 == k) ((dst.filter (fun q => ¬ q.1 == e.1)) ++ [e]) =
      List.find? (fun p => p.1 == k) dst := by
  have hek : (e.1 == k) = false := beq_eq_false_iff_ne.mpr hne
  induction dst with
  | nil =>
    simp only [List.filter_nil, List.nil_append]
    rw [List.find?_cons_of_neg _ (by simp [hek]), List.find?_nil]
  | cons q t ih =>
    by_cases hq : (q.1 == e.1) = true
    · have hqe : q.1 = e.1 := by simpa using hq
      rw [List.filter_cons_of_neg (by simp [hq]),
        List.find?_cons_of_neg _ (by simp [hqe, hek])]
      exact ih
    · rw [List.filter_cons_of_pos (by simp [hq]), List.cons_append]
      by_cases hqk : (q.1 == k) = true
      · rw [List.find?_cons_of_pos _ (by simp [hqk]), List.find?_cons_of_pos _ (by simp [hqk])]
      · rw [List.find?_cons_of_neg _ (by simp [hqk]), List.find?_cons_of_neg _ (by simp [hqk])]
        exact ih

theorem find?_mergeStep_self (dst : Headers) (e : String × List String) :
    List.find? (fun p => p.1 == e.1) ((dst.filter (fun q => ¬ q.1 == e.1)) ++ [e]) =
      some e := by
  induction dst with
  | nil =>
    simp only [List.filter_nil, List.nil_append]
    exact List.find?_cons_of_pos _ (by simp)
  | cons q t ih =>
    by_cases hq : (q.1 == e.1) = true
    · rw [List.filter_cons_of_neg (by simp [hq])]
      exact ih
    · rw [List.filter_cons_of_pos (by simp [hq]), List.cons_append,
        List.find?_cons_of_neg _ (by simp [hq])]
      exact ih

theorem find?_hMergeInto_not (src : Headers) :
    ∀ (dst : Headers) (k : String), hHas src k = false →
      List.find? (fun p => p.1 == k) (hMergeInto dst src) =
        List.find? (fun p => p.1 == k) dst := by
  induction src with
  | nil => intro dst k _; rfl
  | cons e t ih =>
    intro dst k hh
    simp only [hHas, List.any_cons, Bool.or_eq_false_iff] at hh
    have he : ¬ e.1 = k := by simpa using hh.1
    have hstep : hMergeInto dst (e :: t) =
        hMergeInto ((dst.filter (fun q => ¬ q.1 == e.1)) ++ [e]) t := rfl
    rw [hstep, ih _ k (by simpa [hHas] using hh.2), find?_mergeStep_ne dst e k he]

theorem find?_hMergeInto_has (src : Headers) :
    ∀ (dst : Headers) (k : String), (src.map Prod.fst).Nodup → hHas src k = true →
      List.find? (fun p => p.1 == k) (hMergeInto dst src) =
        List.find? (fun p => p.1 == k) src := by
  induction src with
  | nil => intro dst k _ hh; simp [hHas] at hh
  | cons e t ih =>
    intro dst k hnd hh
    simp only [List.map_cons, List.nodup_cons] at hnd
    have hstep : hMergeInto dst (e :: t) =
        hMergeInto ((dst.filter (fun q => ¬ q.1 == e.1)) ++ [e]) t := rfl
    cases he : e.1 == k with
    | true =>
      have hek : e.1 = k := by simpa using he
      have htk : hHas t k = false := by
        rw [hHas_iff_find?]
        cases hf : List.find? (fun p => p.1 == k) t with
        | none => rfl
        | some q =>
          exfalso
          apply hnd.1
          have hqk : q.1 = k := by simpa using List.find?_some hf
          rw [hek, ← hqk]
          exact List.mem_map.mpr ⟨q, List.mem_of_find?_eq_some hf, rfl⟩
      rw [hstep, find?_hMergeInto_not t _ k htk]
      have : List.find? (fun p => p.1 == k) ((dst.filter (fun q => ¬ q.1 == e.1)) ++ [e]) =
          some e := by
        rw [← hek]
        exact find?_mergeStep_self dst e
      rw [this]
      simp [List.find?, he]
    | false =>
      have htk : hHas t k = true := by
        simp only [hHas, List.any_cons, he, Bool.false_or] at hh
        exact hh
      rw [hstep, ih _ k hnd.2 htk]
      simp [List.find?, he]

theorem hGet_hMergeInto_has (dst src : Headers) (k : String)
    (hnd : (src.map Prod.fst).Nodup) (hh : hHas src k = true) :
    hGet (hMergeInto dst src) k = hGet src k := by
  simp [hGet, find?_hMergeInto_has src dst k hnd hh]

theorem hGet_hMergeInto_not (dst src : Headers) (k : String) (hh : hHas src k = false) :
    hGet (hMergeInto dst src) k = hGet dst k := by
  simp [hGet, find?_hMergeInto_not src dst k hh]

theorem hValues_hMergeInto_has (dst src : Headers) (k : String)
    (hnd : (src.map Prod.fst).Nodup) (hh : hHas src k = true) :
    hValues (hMergeInto dst src) k = hValues src k := by
  simp [hValues, find?_hMergeInto_has src dst k hnd hh]

theorem hHas_hMergeInto (dst src : Headers) (k : String)
    (hnd : (src.map Prod.fst).Nodup) :
    hHas (hMergeInto dst src) k = (hHas dst k || hHas src k) := by
  cases hh : hHas src k with
  | true =>
    rw [hHas_iff_find?, find?_hMergeInto_has src dst k hnd hh]
    rw [hHas_iff_find?] at hh
    rw [hh]
    simp
  | false =>
    rw [hHas_iff_find?, find?_hMergeInto_not src dst k hh, ← hHas_iff_find?]
    simp

/-! ### Key uniqueness preservation -/

theorem keys_hSet_mem (h : Headers) (k v a : String)
    (ha : a ∈ (hSet h k v).map Prod.fst) : a ∈ h.map Prod.fst ∨ a = k := by
  induction h with
  | nil =>
    simp only [hSet, List.map_cons, List.map_nil, List.mem_singleton] at ha
    exact Or.inr ha
  | cons p t ih =>
    cases hp : p.1 == k with
    | true =>
      rw [hSet, if_pos hp] at ha
      simp only [List.map_cons, List.mem_cons] at ha
      rcases ha with ha | ha
      · exact Or.inr ha
      · exact Or.inl (by simp [ha])
    | false =>
      rw [hSet, if_neg (by simp [hp])] at ha
      simp only [List.map_cons, List.mem_cons] at ha
      rcases ha with ha | ha
      · exact Or.inl (by simp [ha])
      · rcases ih ha with h1 | h2
        · exact Or.inl (by simp [h1])
        · exact Or.inr h2

theorem nodup_hSet (h : Headers) (k v : String)
    (hnd : (h.map Prod.fst).Nodup) : ((hSet h k v).map Prod.fst).Nodup := by
  induction h with
  | nil => simp [hSet]
  | cons p t ih =>
    simp only [List.map_cons, List.nodup_cons] at hnd
    cases hp : p.1 == k with
    | true =>
      have hpk : p.1 = k := by simpa using hp
      rw [hSet, if_pos hp]
      simp only [List.map_cons, List.nodup_cons]
      exact ⟨by rw [← hpk]; exact hnd.1, hnd.2⟩
    | false =>
      have hpk : ¬ p.1 = k := by simpa using hp
      rw [hSet, if_neg (by simp [hp])]
      simp only [List.map_cons, List.nodup_cons]
      refine ⟨?_, ih hnd.2⟩
      intro hc
      rcases keys_hSet_mem t k v p.1 hc with h1 | h2
      · exact hnd.1 h1
      · exact hpk h2

theorem keys_hAdd_mem (h : Headers) (k v a : String)
    (ha : a ∈ (hAdd h k v).map Prod.fst) : a ∈ h.map Prod.fst ∨ a = k := by
  induction h with
  | nil =>
    simp only [hAdd, List.map_cons, List.map_nil, List.mem_singleton] at ha
    exact Or.inr ha
  | cons p t ih =>
    cases hp : p.1 == k with
    | true =>
      rw [hAdd, if_pos hp] at ha
      simp only [List.map_cons, List.mem_cons] at ha
      rcases ha with ha | ha
      · exact Or.inl (by simp [ha])
      · exact Or.inl (by simp [ha])
    | false =>
      rw [hAdd, if_neg (by simp [hp])] at ha
      simp only [List.map_cons, List.mem_cons] at ha
      rcases ha with ha | ha
      · exact Or.inl (by simp [ha])
      · rcases ih ha with h1 | h2
        · exact Or.inl (by simp [h1])
        · exact Or.inr h2

theorem nodup_hAdd (h : Headers) (k v : String)
    (hnd : (h.map Prod.fst).Nodup) : ((hAdd h k v).map Prod.fst).Nodup := by
  induction h with
  | nil => simp [hAdd]
  | cons p t ih =>
    simp only [List.map_cons, List.nodup_cons] at hnd
    cases hp : p.1 == k with
    | true =>
      rw [hAdd, if_pos hp]
      simp only [List.map_cons, List.nodup_cons]
      exact ⟨hnd.1, hnd.2⟩
    | false =>
      have hpk : ¬ p.1 = k := by simpa using hp
      rw [hAdd, if_neg (by simp [hp])]
      simp only [List.map_cons, List.nodup_cons]
      refine ⟨?_, ih hnd.2⟩
      intro hc
      rcases keys_hAdd_mem t k v p.1 hc with h1 | h2
      · exact hnd.1 h1
      · exact hpk h2

theorem nodup_mergeStep (dst : Headers) (e : String × List String)
    (hnd : (dst.map Prod.fst).Nodup) :
    (((dst.filter (fun q => ¬ q.1 == e.1)) ++ [e]).map Prod.fst).Nodup := by
  rw [List.map_append]
  apply List.Nodup.append
  · exact List.Nodup.sublist (List.Sublist.map Prod.fst (List.filter_sublist dst)) hnd
  · simp
  · intro a ha hb
    simp only [List.map_cons, List.map_nil, List.mem_singleton] at hb
    subst hb
    rcases List.mem_map.mp ha with ⟨q, hq, hqa⟩
    have hfq := List.of_mem_filter hq
    rw [hqa] at hfq
    simp at hfq

theorem nodup_hMergeInto (src : Headers) :
    ∀ (dst : Headers), (dst.map Prod.fst).Nodup →
      ((hMergeInto dst src).map Prod.fst).Nodup := by
  induction src with
  | nil => intro dst hnd; exact hnd
  | cons e t ih =>
    intro dst hnd
    have hstep : hMergeInto dst (e :: t) =
        hMergeInto ((dst.filter (fun q => ¬ q.1 == e.1)) ++ [e]) t := rfl
    rw [hstep]
    exact ih _ (nodup_mergeStep dst e hnd)


/-! ### ETag filter lemmas (claim C4) -/

theorem isEtagMethod_cases (m : String) (h : isEtagMethod m = true) :
    m = "GET" ∨ m = "HEAD" := by
  unfold isEtagMethod at h
  rcases Bool.or_eq_true_iff.mp h with h1 | h2
  · exact Or.inl (by simpa using h1)
  · exact Or.inr (by simpa using h2)

theorem generatedTag_ne_empty (body : List Nat) (ce : String) :
    generatedTag body ce ≠ "" := by
  intro h
  have hlen := congrArg String.length h
  unfold generatedTag at hlen
  simp [String.length_append] at hlen
  exact absurd hlen.2 (by decide)

set_option maxRecDepth 40000 in
set_option maxHeartbeats 1600000 in
/-- C4 counterexample: for the buffered body `"hello world!"` at status
200 on a GET with no prior ETag, the filter emits the SHA-1 digest of
that body, `430ce34d020724ed75a196dfc2ad67c77772d169`, not the claimed
`2aae6c35c94fcfb415dbe95f408b9ce91ee846ed` (which is the digest of
`"hello world"` without the exclamation mark). -/
theorem etag_hello_world_digest :
    hGet (etagRun false (fun _ => none) (plainRequest "GET")
        (fun rb => { rb with body := strBytes "hello world!" }) emptyResp).headers "ETag"
      = "\"430ce34d020724ed75a196dfc2ad67c77772d169\"" ∧
    ("\"430ce34d020724ed75a196dfc2ad67c77772d169\"" : String) ≠
      "\"2aae6c35c94fcfb415dbe95f408b9ce91ee846ed\"" ∧
    hValues (etagRun false (fun _ => none) (plainRequest "GET")
        (fun rb => { rb with body := strBytes "hello world!" }) emptyResp).headers "Vary"
      = ["If-None-Match"] ∧
    (etagRun false (fun _ => none) (plainRequest "GET")
        (fun rb => { rb with body := strBytes "hello world!" }) emptyResp).body
      = strBytes "hello world!" := by
  exact ⟨rfl, by decide, rfl, rfl⟩

theorem respFlush_headers (rb ctx : Resp) :
    (respFlush rb ctx).headers = hMergeInto ctx.headers rb.headers := by
  simp only [respFlush, respFlushHeader, writeHeaderR]
  split_ifs <;> rfl

theorem respFlush_body (rb ctx : Resp) :
    (respFlush rb ctx).body = ctx.body ++ rb.body := by
  simp only [respFlush, respFlushHeader, writeHeaderR]
  split_ifs <;> rfl

set_option maxHeartbeats 800000 in
/-- C4 (amended): when the ETag filter buffers a GET or HEAD response
with status 200, no ETag already present, and no conditional request
headers, it sets ETag to the double-quoted lowercase hex SHA-1 digest of
the buffered body with `-<content-encoding>` appended inside the quotes
when a Content-Encoding is set, appends `If-None-Match` to Vary, and
flushes the body unchanged; for body `"hello world!"` the digest is
`430ce34d020724ed75a196dfc2ad67c77772d169`, not the claimed
`2aae6c35c94fcfb415dbe95f408b9ce91ee846ed`. -/
theorem etag_generates_sha1_tag
    (parseDate : String → Option Int) (req : EtagRequest) (next : Resp → Resp) (ctx : Resp)
    (hmeth : isEtagMethod req.method = true)
    (hm1 : req.ifMatch = "") (hm2 : req.ifNoneMatch = "") (hm3 : req.ifUnmodifiedSince = "")
    (hst : statusR (next (newBuffer ctx)) = 200)
    (hetag : hGet (next (newBuffer ctx)).headers "ETag" = "")
    (hnd : ((next (newBuffer ctx)).headers.map Prod.fst).Nodup) :
    hGet (etagRun false parseDate req next ctx).headers "ETag" =
      generatedTag (next (newBuffer ctx)).body
        (hGet (next (newBuffer ctx)).headers "Content-Encoding") ∧
    hValues (etagRun false parseDate req next ctx).headers "Vary" =
      hValues (next (newBuffer ctx)).headers "Vary" ++ ["If-None-Match"] ∧
    (etagRun false parseDate req next ctx).body =
      ctx.body ++ (next (newBuffer ctx)).body := by
  have hmethOr := isEtagMethod_cases _ hmeth
  have hcontains : strContains "DELETE GET HEAD PATCH POST PUT" req.method = true := by
    rcases hmethOr with h | h <;> rw [h] <;> decide
  have hrun : etagRun false parseDate req next ctx =
      etagFinish (generatedTag (next (newBuffer ctx)).body
          (hGet (next (newBuffer ctx)).headers "Content-Encoding"))
        (next (newBuffer ctx)) ctx := by
    unfold etagRun
    simp [hm1, hm2, hm3, hetag, hmeth, hcontains, hst]
  rw [hrun]
  unfold etagFinish
  rw [if_pos (generatedTag_ne_empty _ _)]
  set rb := next (newBuffer ctx) with hrb
  set tag := generatedTag rb.body (hGet rb.headers "Content-Encoding") with htag
  have hnd1 : ((hAdd (hSet rb.headers "ETag" tag) "Vary" "If-None-Match").map Prod.fst).Nodup :=
    nodup_hAdd _ _ _ (nodup_hSet _ _ _ hnd)
  have hhasE : hHas (hAdd (hSet rb.headers "ETag" tag) "Vary" "If-None-Match") "ETag" = true := by
    rw [hHas_hAdd_ne _ _ _ _ (by decide)]
    exact hHas_hSet_self _ _ _
  have hhasV : hHas (hAdd (hSet rb.headers "ETag" tag) "Vary" "If-None-Match") "Vary" = true :=
    hHas_hAdd_self _ _ _
  refine ⟨?_, ?_, ?_⟩
  · rw [respFlush_headers]
    show hGet (hMergeInto ctx.headers (hAdd (hSet rb.headers "ETag" tag) "Vary" "If-None-Match"))
      "ETag" = tag
    rw [hGet_hMergeInto_has _ _ _ hnd1 hhasE, hGet_hAdd_ne _ _ _ _ (by decide), hGet_hSet_self]
  · rw [respFlush_headers]
    show hValues (hMergeInto ctx.headers (hAdd (hSet rb.headers "ETag" tag) "Vary" "If-None-Match"))
      "Vary" = hValues rb.headers "Vary" ++ ["If-None-Match"]
    rw [hValues_hMergeInto_has _ _ _ hnd1 hhasV, hValues_hAdd_self,
      hValues_hSet_ne _ _ _ _ (by decide)]
  · rw [respFlush_body]

set_option maxRecDepth 40000 in
set_option maxHeartbeats 1600000 in
/-- Witness for `etag_generates_sha1_tag` at the concrete scenario of
the claim: a GET whose handler writes `"hello world!"`. -/
theorem etag_generates_sha1_tag_witness :
    hGet (etagRun false (fun _ => none) (plainRequest "GET")
        (fun rb => { rb with body := strBytes "hello world!" }) emptyResp).headers "ETag"
      = generatedTag (strBytes "hello world!") "" := by
  have h := (etag_generates_sha1_tag (fun _ => none) (plainRequest "GET")
    (fun rb => { rb with body := strBytes "hello world!" }) emptyResp
    rfl rfl rfl rfl rfl rfl (by simp [newBuffer, emptyResp])).1
  exact h

/-! ### Gzip and ETag composed pipeline (claim C5) -/

theorem listContainsSeg_infix_iff (sub l : List Char) :
    listContainsSeg l sub = true ↔ sub <:+: l := by
  induction l with
  | nil => simp [listContainsSeg, List.isEmpty_iff, List.infix_nil]
  | cons c t ih =>
    simp [listContainsSeg, List.isPrefixOf_iff_prefix, ih, List.infix_cons_iff]

theorem strContains_eq_false_of_not_mem (v sub : String) (c : Char)
    (hc : c ∈ sub.toList) (hv : c ∉ v.toList) : strContains v sub = false := by
  cases h : strContains v sub with
  | false => rfl
  | true =>
    have h' : listContainsSeg v.toList sub.toList = true := h
    exact absurd (((listContainsSeg_infix_iff _ _).mp h').subset hc) hv

theorem gzipRewriteTag_contains (etag : String) :
    strContains (gzipRewriteTag etag) "-gzip" = true := by
  have h1 : (gzipRewriteTag etag).toList =
      (trimSuffixQuote etag).toList ++ ("-gzip".toList ++ ['"']) := by
    unfold gzipRewriteTag
    simp only [String.toList, String.data_append]
    exact congrArg ((trimSuffixQuote etag).data ++ .) (by decide)
  show listContainsSeg (gzipRewriteTag etag).toList ("-gzip".toList) = true
  rw [listContainsSeg_infix_iff, h1]
  exact ⟨(trimSuffixQuote etag).toList, ['"'], by rw [List.append_assoc]⟩

theorem beBytes_lt_256 : ∀ (n v : Nat), ∀ x ∈ beBytes n v, x < 256 := by
  intro n
  induction n with
  | zero => intro v x hx; simp [beBytes] at hx
  | succ m ih =>
    intro v x hx
    simp only [beBytes, List.mem_append, List.mem_singleton] at hx
    rcases hx with hx | hx
    · exact ih _ x hx
    · subst hx; exact Nat.mod_lt _ (by decide)

theorem sha1_lt_256 (msg : List Nat) : ∀ x ∈ sha1 msg, x < 256 := by
  intro x hx
  simp only [sha1, List.mem_append] at hx
  rcases hx with ((((h | h) | h) | h) | h) <;> exact beBytes_lt_256 4 _ x h

theorem hexDigit_ne_g : ∀ n < 16, hexDigit n ≠ 'g' := by decide

theorem hexByte_not_mem_g (b : Nat) (hb : b < 256) : 'g' ∉ (hexByte b).toList := by
  intro hmem
  have h1 : (hexByte b).toList = [hexDigit (b / 16), hexDigit (b % 16)] := rfl
  rw [h1] at hmem
  simp only [List.mem_cons, List.not_mem_nil, or_false] at hmem
  rcases hmem with h | h
  · exact hexDigit_ne_g (b / 16) (by omega) h.symm
  · exact hexDigit_ne_g (b % 16) (by omega) h.symm

theorem toList_foldl_append (l : List String) :
    ∀ acc : String, (l.foldl (fun r s => r ++ s) acc).toList =
      acc.toList ++ (l.map String.toList).flatten := by
  induction l with
  | nil => intro acc; simp
  | cons s t ih =>
    intro acc
    simp only [List.foldl_cons, List.map_cons, List.flatten_cons]
    rw [ih]
    simp [String.data_append, List.append_assoc]

theorem hexEncode_not_mem_g (bs : List Nat) (h : ∀ x ∈ bs, x < 256) :
    'g' ∉ (hexEncode bs).toList := by
  intro hmem
  unfold hexEncode String.join at hmem
  rw [toList_foldl_append] at hmem
  have h0 : ("" : String).toList = [] := rfl
  rw [h0, List.nil_append] at hmem
  simp only [List.mem_flatten, List.mem_map] at hmem
  rcases hmem with ⟨cs, ⟨w, ⟨b, hb, hw⟩, hcs⟩, hg⟩
  subst hw
  subst hcs
  exact hexByte_not_mem_g b (h b hb) hg

theorem generatedTag_gfree (body : List Nat) : 'g' ∉ (generatedTag body "").toList := by
  intro hmem
  have h1 : generatedTag body "" = "\"" ++ hexEncode (sha1 body) ++ "" ++ "\"" := rfl
  rw [h1] at hmem
  simp only [String.toList, String.data_append, List.mem_append] at hmem
  rcases hmem with ((h | h) | h) | h
  · exact absurd h (by decide)
  · exact hexEncode_not_mem_g (sha1 body) (sha1_lt_256 body) h
  · exact absurd h (by decide)
  · exact absurd h (by decide)

theorem writeHeaderR_headers (r : Resp) (c : Nat) :
    (writeHeaderR r c).headers = r.headers := by
  unfold writeHeaderR
  split_ifs <;> rfl

theorem respFlushHeader_headers (rb c : Resp) :
    (respFlushHeader rb c).headers = hMergeInto c.headers rb.headers := by
  simp only [respFlushHeader, writeHeaderR]
  split_ifs <;> rfl

theorem hGet_of_hHas_false (h : Headers) (k : String) (hh : hHas h k = false) :
    hGet h k = "" := by
  by_contra hx
  rw [hGet_ne_empty_hHas h k hx] at hh
  exact absurd hh (by decide)

theorem etag_prop_merge (c o : Headers)
    (hnod : (o.map Prod.fst).Nodup)
    (hcE : hHas c "ETag" = false)
    (h : hHas o "ETag" = false ∨ 'g' ∉ (hGet o "ETag").toList) :
    hHas (hMergeInto c o) "ETag" = false ∨
      'g' ∉ (hGet (hMergeInto c o) "ETag").toList := by
  rcases h with h | h
  · left
    rw [hHas_hMergeInto c o _ hnod, hcE, h]
    rfl
  · cases hb : hHas o "ETag" with
    | true =>
      right
      rw [hGet_hMergeInto_has c o _ hnod hb]
      exact h
    | false =>
      left
      rw [hHas_hMergeInto c o _ hnod, hcE, hb]
      rfl

theorem suffix_goal_of_prop (hs : Headers)
    (h : hHas hs "ETag" = false ∨ 'g' ∉ (hGet hs "ETag").toList) :
    hGet hs "ETag" ≠ "" → (strContains (hGet hs "ETag") "-gzip" = true ↔ false = true) := by
  intro hne
  rcases h with h | h
  · exact absurd (hGet_of_hHas_false hs "ETag" h) hne
  · rw [strContains_eq_false_of_not_mem _ _ 'g' (by decide) h]

theorem etagRun_no_cond_props (parseDate : String → Option Int) (req : EtagRequest)
    (next : Resp → Resp) (s : Resp)
    (hm1 : req.ifMatch = "") (hm2 : req.ifNoneMatch = "")
    (hm3 : req.ifUnmodifiedSince = "") (hm4 : req.ifModifiedSince = "")
    (hnodrb : ((next (newBuffer s)).headers.map Prod.fst).Nodup)
    (hrbE : hHas (next (newBuffer s)).headers "ETag" = false)
    (hrbCE : hHas (next (newBuffer s)).headers "Content-Encoding" = false)
    (hs1 : (s.headers.map Prod.fst).Nodup)
    (hs2 : hHas s.headers "ETag" = false) :
    (hHas (etagRun false parseDate req next s).headers "ETag" = false ∨
      'g' ∉ (hGet (etagRun false parseDate req next s).headers "ETag").toList) ∧
    ((etagRun false parseDate req next s).headers.map Prod.fst).Nodup := by
  have hrbEget : hGet (next (newBuffer s)).headers "ETag" = "" :=
    hGet_of_hHas_false _ _ hrbE
  have hrbCEget : hGet (next (newBuffer s)).headers "Content-Encoding" = "" :=
    hGet_of_hHas_false _ _ hrbCE
  have hflush : (hHas (respFlush (next (newBuffer s)) s).headers "ETag" = false ∨
      'g' ∉ (hGet (respFlush (next (newBuffer s)) s).headers "ETag").toList) ∧
      ((respFlush (next (newBuffer s)) s).headers.map Prod.fst).Nodup := by
    constructor
    · left
      rw [respFlush_headers, hHas_hMergeInto _ _ _ hnodrb, hs2, hrbE]
      rfl
    · rw [respFlush_headers]
      exact nodup_hMergeInto _ _ hs1
  by_cases hD : strContains "DELETE GET HEAD PATCH POST PUT" req.method = true
  case neg =>
    have hrun : etagRun false parseDate req next s = respFlush (next (newBuffer s)) s := by
      unfold etagRun
      simp [hD]
    rw [hrun]
    exact hflush
  case pos =>
  by_cases h200 : statusR (next (newBuffer s)) = 200
  case pos =>
    by_cases hm : isEtagMethod req.method = true
    case pos =>
      have hrun : etagRun false parseDate req next s =
          etagFinish (generatedTag (next (newBuffer s)).body "") (next (newBuffer s)) s := by
        unfold etagRun
        simp [hm1, hm2, hm3, hm4, hD, h200, hm, hrbEget, hrbCEget]
      rw [hrun]
      unfold etagFinish
      rw [if_pos (generatedTag_ne_empty _ _), respFlush_headers]
      have hnd1 : ((hAdd (hSet (next (newBuffer s)).headers "ETag"
          (generatedTag (next (newBuffer s)).body "")) "Vary" "If-None-Match").map
            Prod.fst).Nodup :=
        nodup_hAdd _ _ _ (nodup_hSet _ _ _ hnodrb)
      constructor
      · right
        rw [hGet_hMergeInto_has _ _ _ hnd1
            (by rw [hHas_hAdd_ne _ _ _ _ (by decide)]; exact hHas_hSet_self _ _ _),
          hGet_hAdd_ne _ _ _ _ (by decide), hGet_hSet_self]
        exact generatedTag_gfree _
      · exact nodup_hMergeInto _ _ hs1
    case neg =>
      have hrun : etagRun false parseDate req next s = respFlush (next (newBuffer s)) s := by
        unfold etagRun
        simp [hm1, hm2, hm3, hm4, hD, h200, hm, hrbEget, etagFinish]
      rw [hrun]
      exact hflush
  case neg =>
    by_cases hA : statusR (next (newBuffer s)) < 200
    case pos =>
      have hrun : etagRun false parseDate req next s = respFlush (next (newBuffer s)) s := by
        unfold etagRun
        simp [hA]
      rw [hrun]
      exact hflush
    case neg =>
    by_cases hB : statusR (next (newBuffer s)) = 204
    case pos =>
      have hrun : etagRun false parseDate req next s = respFlush (next (newBuffer s)) s := by
        unfold etagRun
        simp [hB]
      rw [hrun]
      exact hflush
    case neg =>
    by_cases hC1 : statusR (next (newBuffer s)) > 299
    case pos =>
      by_cases hC2 : statusR (next (newBuffer s)) = 412
      case pos =>
        have hrun : etagRun false parseDate req next s = respFlush (next (newBuffer s)) s := by
          unfold etagRun
          simp [hm1, hm2, hm3, hm4, hC2, hD, hrbEget, etagFinish]
        rw [hrun]
        exact hflush
      case neg =>
        have hrun : etagRun false parseDate req next s = respFlush (next (newBuffer s)) s := by
          unfold etagRun
          simp [hA, hB, hC1, hC2, hD]
        rw [hrun]
        exact hflush
    case neg =>
      have hrun : etagRun false parseDate req next s = respFlush (next (newBuffer s)) s := by
        unfold etagRun
        simp [hm1, hm2, hm3, hm4, hA, hB, hC1, h200, hD, hrbEget, etagFinish]
      rw [hrun]
      exact hflush

/-- C5 (amended): for a request carrying no conditional headers, when
the downstream handler sets neither an ETag nor a Content-Encoding
header itself (and keeps header keys unique), any non-empty ETag the
gzip-over-ETag pipeline emits contains `-gzip` iff the response body was
actually gzip-compressed. -/
theorem gzip_etag_suffix_iff_compressed
    (minLength : Nat) (compress : List Nat → List Nat) (prefSkip : String → Bool)
    (parseDate : String → Option Int) (greq : GzipRequest) (ereq : EtagRequest)
    (next : Resp → Resp) (ctx : Resp)
    (hm1 : ereq.ifMatch = "") (hm2 : ereq.ifNoneMatch = "")
    (hm3 : ereq.ifUnmodifiedSince = "") (hm4 : ereq.ifModifiedSince = "")
    (hnod : ∀ t : Resp, (t.headers.map Prod.fst).Nodup →
      ((next t).headers.map Prod.fst).Nodup)
    (hpres : ∀ t : Resp, hHas t.headers "ETag" = false →
      hHas (next t).headers "ETag" = false)
    (hcepres : ∀ t : Resp, hHas t.headers "Content-Encoding" = false →
      hHas (next t).headers "Content-Encoding" = false)
    (hcn : (ctx.headers.map Prod.fst).Nodup)
    (hcE : hHas ctx.headers "ETag" = false)
    (hcCE : hHas ctx.headers "Content-Encoding" = false) :
    hGet (gzipEtagPipeline minLength compress prefSkip parseDate greq ereq next
        ctx).1.headers "ETag" ≠ "" →
      (strContains (hGet (gzipEtagPipeline minLength compress prefSkip parseDate greq ereq
          next ctx).1.headers "ETag") "-gzip" = true ↔
        (gzipEtagPipeline minLength compress prefSkip parseDate greq ereq next ctx).2
          = true) := by
  have hhn : ((hAdd ctx.headers "Vary" "Accept-Encoding").map Prod.fst).Nodup :=
    nodup_hAdd _ _ _ hcn
  have hhE : hHas (hAdd ctx.headers "Vary" "Accept-Encoding") "ETag" = false := by
    rw [hHas_hAdd_ne _ _ _ _ (by decide)]
    exact hcE
  have hhCE : hHas (hAdd ctx.headers "Vary" "Accept-Encoding") "Content-Encoding" = false := by
    rw [hHas_hAdd_ne _ _ _ _ (by decide)]
    exact hcCE
  have hLE1 := etagRun_no_cond_props parseDate ereq next
    { ctx with headers := hAdd ctx.headers "Vary" "Accept-Encoding" }
    hm1 hm2 hm3 hm4 (hnod _ hhn) (hpres _ hhE) (hcepres _ hhCE) hhn hhE
  have hLE2 := etagRun_no_cond_props parseDate ereq next
    (newBuffer { ctx with headers := hAdd ctx.headers "Vary" "Accept-Encoding" })
    hm1 hm2 hm3 hm4 (hnod _ hhn) (hpres _ hhE) (hcepres _ hhCE) hhn hhE
  have hAddE : ∀ hs : Headers, hGet (hAdd hs "Content-Encoding" "gzip") "ETag" = hGet hs "ETag" :=
    fun hs => hGet_hAdd_ne hs _ _ _ (by decide)
  have hAddEh : ∀ hs : Headers, hHas (hAdd hs "Content-Encoding" "gzip") "ETag" = hHas hs "ETag" :=
    fun hs => hHas_hAdd_ne hs _ _ _ (by decide)
  by_cases hg1 : (strContains greq.acceptEncoding "gzip" || greq.acceptEncoding == "*") = true
  case neg =>
    have hrun : gzipEtagPipeline minLength compress prefSkip parseDate greq ereq next ctx =
        (etagRun false parseDate ereq next
          { ctx with headers := hAdd ctx.headers "Vary" "Accept-Encoding" }, false) := by
      unfold gzipEtagPipeline gzipRun
      simp [hg1]
    rw [hrun]
    exact suffix_goal_of_prop _ hLE1.1
  case pos =>
  by_cases hg2 : greq.ifRange = ""
  case neg =>
    have hrun : gzipEtagPipeline minLength compress prefSkip parseDate greq ereq next ctx =
        (etagRun false parseDate ereq next
          { ctx with headers := hAdd ctx.headers "Vary" "Accept-Encoding" }, false) := by
      unfold gzipEtagPipeline gzipRun
      simp [hg1, hg2]
    rw [hrun]
    exact suffix_goal_of_prop _ hLE1.1
  case pos =>
  by_cases hg3 : prefSkip greq.acceptEncoding = true
  case pos =>
    have hrun : gzipEtagPipeline minLength compress prefSkip parseDate greq ereq next ctx =
        (etagRun false parseDate ereq next
          { ctx with headers := hAdd ctx.headers "Vary" "Accept-Encoding" }, false) := by
      unfold gzipEtagPipeline gzipRun
      simp [hg1, hg2, hg3]
    rw [hrun]
    exact suffix_goal_of_prop _ hLE1.1
  case neg =>
  by_cases h304 : statusR (etagRun false parseDate ereq next
      (newBuffer { ctx with headers := hAdd ctx.headers "Vary" "Accept-Encoding" })) = 304
  case pos =>
    have hrun : gzipEtagPipeline minLength compress prefSkip parseDate greq ereq next ctx =
        (respFlush (etagRun false parseDate ereq next
            (newBuffer { ctx with headers := hAdd ctx.headers "Vary" "Accept-Encoding" }))
          (writeHeaderR { ctx with headers := hAdd ctx.headers "Vary" "Accept-Encoding" } 304),
          false) := by
      unfold gzipEtagPipeline gzipRun
      simp [hg1, hg2, hg3, h304]
    rw [hrun]
    refine suffix_goal_of_prop _ ?_
    rw [respFlush_headers, writeHeaderR_headers]
    exact etag_prop_merge _ _ hLE2.2 hhE hLE2.1
  case neg =>
  by_cases h204 : statusR (etagRun false parseDate ereq next
      (newBuffer { ctx with headers := hAdd ctx.headers "Vary" "Accept-Encoding" })) = 204
  case pos =>
    have hrun : gzipEtagPipeline minLength compress prefSkip parseDate greq ereq next ctx =
        (respFlush (etagRun false parseDate ereq next
            (newBuffer { ctx with headers := hAdd ctx.headers "Vary" "Accept-Encoding" }))
          { ctx with headers := hAdd ctx.headers "Vary" "Accept-Encoding" }, false) := by
      unfold gzipEtagPipeline gzipRun
      simp [hg1, hg2, hg3, h204]
    rw [hrun]
    refine suffix_goal_of_prop _ ?_
    rw [respFlush_headers]
    exact etag_prop_merge _ _ hLE2.2 hhE hLE2.1
  case neg =>
  by_cases h299 : statusR (etagRun false parseDate ereq next
      (newBuffer { ctx with headers := hAdd ctx.headers "Vary" "Accept-Encoding" })) > 299
  case pos =>
    have hrun : gzipEtagPipeline minLength compress prefSkip parseDate greq ereq next ctx =
        (respFlush (etagRun false parseDate ereq next
            (newBuffer { ctx with headers := hAdd ctx.headers "Vary" "Accept-Encoding" }))
          { ctx with headers := hAdd ctx.headers "Vary" "Accept-Encoding" }, false) := by
      unfold gzipEtagPipeline gzipRun
      simp [hg1, hg2, hg3, h304, h204, h299]
    rw [hrun]
    refine suffix_goal_of_prop _ ?_
    rw [respFlush_headers]
    exact etag_prop_merge _ _ hLE2.2 hhE hLE2.1
  case neg =>
  by_cases hlow : statusR (etagRun false parseDate ereq next
      (newBuffer { ctx with headers := hAdd ctx.headers "Vary" "Accept-Encoding" })) < 200
  case pos =>
    have hrun : gzipEtagPipeline minLength compress prefSkip parseDate greq ereq next ctx =
        (respFlush (etagRun false parseDate ereq next
            (newBuffer { ctx with headers := hAdd ctx.headers "Vary" "Accept-Encoding" }))
          { ctx with headers := hAdd ctx.headers "Vary" "Accept-Encoding" }, false) := by
      unfold gzipEtagPipeline gzipRun
      simp [hg1, hg2, hg3, h304, h204, h299, hlow]
    rw [hrun]
    refine suffix_goal_of_prop _ ?_
    rw [respFlush_headers]
    exact etag_prop_merge _ _ hLE2.2 hhE hLE2.1
  case neg =>
  by_cases hCR : hGet (etagRun false parseDate ereq next
      (newBuffer { ctx with headers := hAdd ctx.headers "Vary" "Accept-Encoding" })).headers
      "Content-Range" = ""
  case neg =>
    have hrun : gzipEtagPipeline minLength compress prefSkip parseDate greq ereq next ctx =
        (respFlush (etagRun false parseDate ereq next
            (newBuffer { ctx with headers := hAdd ctx.headers "Vary" "Accept-Encoding" }))
          { ctx with headers := hAdd ctx.headers "Vary" "Accept-Encoding" }, false) := by
      unfold gzipEtagPipeline gzipRun
      simp [hg1, hg2, hg3, h304, h204, h299, hlow, hCR]
    rw [hrun]
    refine suffix_goal_of_prop _ ?_
    rw [respFlush_headers]
    exact etag_prop_merge _ _ hLE2.2 hhE hLE2.1
  case pos =>
  by_cases hCEg : strContains (hGet (etagRun false parseDate ereq next
      (newBuffer { ctx with headers := hAdd ctx.headers "Vary" "Accept-Encoding" })).headers
      "Content-Encoding") "gzip" = true
  case pos =>
    have hrun : gzipEtagPipeline minLength compress prefSkip parseDate greq ereq next ctx =
        (respFlush (etagRun false parseDate ereq next
            (newBuffer { ctx with headers := hAdd ctx.headers "Vary" "Accept-Encoding" }))
          { ctx with headers := hAdd ctx.headers "Vary" "Accept-Encoding" }, false) := by
      unfold gzipEtagPipeline gzipRun
      simp [hg1, hg2, hg3, h304, h204, h299, hlow, hCR, hCEg]
    rw [hrun]
    refine suffix_goal_of_prop _ ?_
    rw [respFlush_headers]
    exact etag_prop_merge _ _ hLE2.2 hhE hLE2.1
  case neg =>
  by_cases hlen : (etagRun false parseDate ereq next
      (newBuffer { ctx with headers := hAdd ctx.headers "Vary" "Accept-Encoding" })).body.length
      < minLength
  case pos =>
    have hrun : gzipEtagPipeline minLength compress prefSkip parseDate greq ereq next ctx =
        (respFlush (etagRun false parseDate ereq next
            (newBuffer { ctx with headers := hAdd ctx.headers "Vary" "Accept-Encoding" }))
          { ctx with headers := hAdd ctx.headers "Vary" "Accept-Encoding" }, false) := by
      unfold gzipEtagPipeline gzipRun
      simp [hg1, hg2, hg3, h304, h204, h299, hlow, hCR, hCEg, hlen]
    rw [hrun]
    refine suffix_goal_of_prop _ ?_
    rw [respFlush_headers]
    exact etag_prop_merge _ _ hLE2.2 hhE hLE2.1
  case neg =>
  by_cases het : hGet (etagRun false parseDate ereq next
      (newBuffer { ctx with headers := hAdd ctx.headers "Vary" "Accept-Encoding" })).headers
      "ETag" = ""
  case pos =>
    have hfin : hGet (gzipEtagPipeline minLength compress prefSkip parseDate greq ereq next
        ctx).1.headers "ETag" = "" := by
      unfold gzipEtagPipeline gzipRun
      simp [hg1, hg2, hg3, h304, h204, h299, hlow, hCR, hCEg, hlen, hAddE, het,
        respFlushHeader_headers]
      cases hb : hHas (etagRun false parseDate ereq next
          (newBuffer { ctx with headers := hAdd ctx.headers "Vary" "Accept-Encoding" })).headers
          "ETag" with
      | true =>
        rw [hGet_hMergeInto_has _ _ _ (nodup_hAdd _ _ _ hLE2.2) (by rw [hAddEh]; exact hb),
          hAddE]
        exact het
      | false =>
        rw [hGet_hMergeInto_not _ _ _ (by rw [hAddEh]; exact hb)]
        exact hGet_of_hHas_false _ _ hhE
    intro hne
    exact absurd hfin hne
  case neg =>
    have hgfree : 'g' ∉ (hGet (etagRun false parseDate ereq next
        (newBuffer { ctx with headers := hAdd ctx.headers "Vary" "Accept-Encoding" })).headers
        "ETag").toList := by
      rcases hLE2.1 with h | h
      · exact absurd (hGet_of_hHas_false _ _ h) het
      · exact h
    have hgz : strContains (hGet (etagRun false parseDate ereq next
        (newBuffer { ctx with headers := hAdd ctx.headers "Vary" "Accept-Encoding" })).headers
        "ETag") "gzip" = false :=
      strContains_eq_false_of_not_mem _ _ 'g' (by decide) hgfree
    have hfin : hGet (gzipEtagPipeline minLength compress prefSkip parseDate greq ereq next
        ctx).1.headers "ETag" = gzipRewriteTag (hGet (etagRun false parseDate ereq next
          (newBuffer { ctx with headers := hAdd ctx.headers "Vary" "Accept-Encoding" })).headers
          "ETag") := by
      unfold gzipEtagPipeline gzipRun
      simp [hg1, hg2, hg3, h304, h204, h299, hlow, hCR, hCEg, hlen, hAddE, het, hgz,
        respFlushHeader_headers]
      rw [hGet_hMergeInto_has _ _ _ (nodup_hSet _ _ _ (nodup_hAdd _ _ _ hLE2.2))
        (hHas_hSet_self _ _ _), hGet_hSet_self]
    have hsnd : (gzipEtagPipeline minLength compress prefSkip parseDate greq ereq next ctx).2
        = true := by
      unfold gzipEtagPipeline gzipRun
      simp [hg1, hg2, hg3, h304, h204, h299, hlow, hCR, hCEg, hlen, hAddE, het, hgz]
    intro hne
    rw [hfin, hsnd, gzipRewriteTag_contains]

set_option maxRecDepth 8000 in
/-- C5 counterexample: a handler that itself sets the header
`ETag: "x-gzip"` on a request whose `Accept-Encoding` is empty passes
through both filters uncompressed, yet the emitted ETag contains
`-gzip`: the suffix can appear without the body being gzip-compressed. -/
theorem gzip_etag_handler_tag_counterexample :
    strContains (hGet (gzipEtagPipeline 0 (fun bs => bs) (fun _ => false) (fun _ => none)
        ⟨"", ""⟩ (plainRequest "GET")
        (fun rb => { rb with headers := hSet rb.headers "ETag" "\"x-gzip\"", body := [104, 105] })
        emptyResp).1.headers "ETag") "-gzip" = true ∧
    (gzipEtagPipeline 0 (fun bs => bs) (fun _ => false) (fun _ => none)
        ⟨"", ""⟩ (plainRequest "GET")
        (fun rb => { rb with headers := hSet rb.headers "ETag" "\"x-gzip\"", body := [104, 105] })
        emptyResp).2 = false := ⟨rfl, rfl⟩

set_option maxRecDepth 40000 in
set_option maxHeartbeats 1600000 in
/-- Witness for `gzip_etag_suffix_iff_compressed`: a gzip-accepting GET
over a two-byte body is compressed, and the emitted ETag gains the
`-gzip` suffix. -/
theorem gzip_etag_suffix_iff_compressed_witness :
    strContains (hGet (gzipEtagPipeline 0 (fun bs => bs) (fun _ => false) (fun _ => none)
        ⟨"gzip", ""⟩ (plainRequest "GET")
        (fun rb => { rb with body := [104, 105] }) emptyResp).1.headers "ETag") "-gzip"
      = true := by
  exact ((gzip_etag_suffix_iff_compressed 0 (fun bs => bs) (fun _ => false) (fun _ => none)
      ⟨"gzip", ""⟩ (plainRequest "GET") (fun rb => { rb with body := [104, 105] }) emptyResp
      rfl rfl rfl rfl (fun t h => h) (fun t h => h) (fun t h => h)
      (by simp [emptyResp]) rfl rfl) (by decide)).mpr rfl

/-! ### Trie insertion and lookup lemmas -/

theorem linksGet_linksSet_self (ls : List (String × TrieNode)) (k : String) (n : TrieNode) :
    linksGet (linksSet ls k n) k = some n := by
  induction ls with
  | nil => simp [linksSet, linksGet, List.find?]
  | cons p t ih =>
    by_cases hp : p.1 == k
    · simp [linksSet, hp, linksGet, List.find?]
    · simp only [linksSet, hp, if_false]
      simpa [linksGet, List.find?, hp] using ih

theorem linksGet_linksSet_ne (ls : List (String × TrieNode)) (k : String) (n : TrieNode)
    (k' : String) (hne : k' ≠ k) :
    linksGet (linksSet ls k n) k' = linksGet ls k' := by
  have hkk : ((k : String) == k') = false := by
    simp only [beq_eq_false_iff_ne, ne_eq]
    exact fun hc => hne hc.symm
  induction ls with
  | nil => simp [linksSet, linksGet, List.find?, hkk]
  | cons p t ih =>
    by_cases hp : p.1 == k
    · have hpk : p.1 = k := by simpa using hp
      have hp' : (p.1 == k') = false := by
        rw [hpk]
        exact hkk
      simp [linksSet, hp, linksGet, List.find?, hkk, hp', hpk]
    · simp only [linksSet, hp, if_false]
      by_cases hq : p.1 == k'
      · simp [linksGet, List.find?, hq]
      · simpa [linksGet, List.find?, hq] using ih

theorem handlerAt_fresh (d : Nat) (st : List String) :
    handlerAt (.mk none 0 d []) st = none := by
  cases st with
  | nil => rfl
  | cons s t => simp [handlerAt, trieLookup, TrieNode.links, linksGet, List.find?]

theorem handlerAt_insert (key : List String) :
    ∀ (n : TrieNode) (ks : List String) (h : Nat),
      handlerAt (trieInsert n key h) ks =
        if ks = key then some h else handlerAt n ks := by
  induction key with
  | nil =>
    intro n ks h
    cases n with
    | mk hd ne d ls =>
      cases ks with
      | nil => simp [handlerAt, trieInsert, trieLookup, TrieNode.handler]
      | cons s st =>
        simp [handlerAt, trieInsert, trieLookup, TrieNode.links]
  | cons k kt ih =>
    intro n ks h
    cases n with
    | mk hd ne d ls =>
      cases ks with
      | nil =>
        simp [handlerAt, trieInsert, trieLookup, TrieNode.handler]
      | cons s st =>
        by_cases hs : s = k
        · subst hs
          have hunfold :
              handlerAt (trieInsert (TrieNode.mk hd ne d ls) (s :: kt) h) (s :: st) =
                handlerAt (trieInsert (match linksGet ls s with
                  | some c => c
                  | none => TrieNode.mk none 0 (d + 1) []) kt h) st := by
            simp only [handlerAt, trieInsert, trieLookup, TrieNode.links, TrieNode.depth,
              TrieNode.numExp, TrieNode.handler]
            rw [linksGet_linksSet_self]
          rw [hunfold, ih]
          by_cases hst : st = kt
          · simp [hst]
          · have hne2 : ¬ (s :: st = s :: kt) := by simp [hst]
            rw [if_neg hst, if_neg hne2]
            cases hc : linksGet ls s with
            | some c =>
              simp only [hc]
              simp only [handlerAt, trieLookup, TrieNode.links, hc]
            | none =>
              simp only [hc]
              rw [handlerAt_fresh]
              simp only [handlerAt, trieLookup, TrieNode.links, hc]
              rfl
        · have hne2 : ¬ (s :: st = k :: kt) := by simp [hs]
          rw [if_neg hne2]
          simp only [handlerAt, trieInsert, trieLookup, TrieNode.links, TrieNode.depth,
            TrieNode.numExp]
          rw [linksGet_linksSet_ne _ _ _ _ hs]

theorem handlerAt_build (regs : List (String × String × Nat)) (ks : List String) :
    handlerAt (buildRouter regs).root ks = lastHandlerFor regs ks := by
  induction regs using List.reverseRecOn with
  | nil =>
    cases ks <;>
      simp [buildRouter, newRouter, handlerAt, trieLookup, lastHandlerFor, linksGet,
        List.find?, TrieNode.handler, TrieNode.links]
  | append_singleton regs q ih =>
    have hroot : (buildRouter (regs ++ [q])).root =
        trieInsert (buildRouter regs).root (routeSegs q.1 q.2.1) q.2.2 := by
      simp [buildRouter, List.foldl_append, addRoute]
    have hlast : lastHandlerFor (regs ++ [q]) ks =
        if routeSegs q.1 q.2.1 = ks then some q.2.2 else lastHandlerFor regs ks := by
      simp [lastHandlerFor, List.foldl_append]
    rw [hroot, handlerAt_insert, hlast, ih]
    by_cases hks : ks = routeSegs q.1 q.2.1
    · simp [hks]
    · have hks' : ¬ routeSegs q.1 q.2.1 = ks := fun hc => hks hc.symm
      simp [hks, hks']

/-! ### Trie well-formedness -/

theorem linksSet_keys_mem (ls : List (String × TrieNode)) (k : String) (n : TrieNode)
    (a : String) (ha : a ∈ (linksSet ls k n).map Prod.fst) :
    a ∈ ls.map Prod.fst ∨ a = k := by
  induction ls with
  | nil =>
    simp only [linksSet, List.map_cons, List.map_nil, List.mem_singleton] at ha
    exact Or.inr ha
  | cons p t ih =>
    cases hp : p.1 == k with
    | true =>
      have hpk : p.1 = k := by simpa using hp
      rw [linksSet, if_pos hp] at ha
      simp only [List.map_cons, List.mem_cons] at ha
      rcases ha with ha | ha
      · exact Or.inr ha
      · exact Or.inl (by simp [ha])
    | false =>
      rw [linksSet, if_neg (by simp [hp])] at ha
      simp only [List.map_cons, List.mem_cons] at ha
      rcases ha with ha | ha
      · exact Or.inl (by simp [ha])
      · rcases ih ha with h1 | h2
        · exact Or.inl (by simp [h1])
        · exact Or.inr h2

theorem linksSet_nodup (ls : List (String × TrieNode)) (k : String) (n : TrieNode)
    (hnd : (ls.map Prod.fst).Nodup) : ((linksSet ls k n).map Prod.fst).Nodup := by
  induction ls with
  | nil => simp [linksSet]
  | cons p t ih =>
    simp only [List.map_cons, List.nodup_cons] at hnd
    cases hp : p.1 == k with
    | true =>
      have hpk : p.1 = k := by simpa using hp
      rw [linksSet, if_pos hp]
      simp only [List.map_cons, List.nodup_cons]
      exact ⟨by rw [← hpk]; exact hnd.1, hnd.2⟩
    | false =>
      have hpk : ¬ p.1 = k := by simpa using hp
      rw [linksSet, if_neg (by simp [hp])]
      simp only [List.map_cons, List.nodup_cons]
      refine ⟨?_, ih hnd.2⟩
      intro hc
      rcases linksSet_keys_mem t k n p.1 hc with h1 | h2
      · exact hnd.1 h1
      · exact hpk h2

theorem linksGet_mem (ls : List (String × TrieNode)) (k : String) (c : TrieNode)
    (h : linksGet ls k = some c) : (k, c) ∈ ls := by
  unfold linksGet at h
  cases hf : List.find? (fun p => p.1 == k) ls with
  | none => rw [hf] at h; cases h
  | some p =>
    rw [hf] at h
    have hp := List.find?_some hf
    have hm := List.mem_of_find?_eq_some hf
    have hpk : p.1 = k := by simpa using hp
    have hpc : p.2 = c := by
      cases h
      rfl
    have : p = (k, c) := by
      cases p
      simp only at hpk hpc
      rw [hpk, hpc]
    rw [← this]
    exact hm

theorem linksGet_of_mem_nodup (ls : List (String × TrieNode)) (k : String) (c : TrieNode)
    (hnd : (ls.map Prod.fst).Nodup) (hm : (k, c) ∈ ls) : linksGet ls k = some c := by
  induction ls with
  | nil => cases hm
  | cons p t ih =>
    simp only [List.map_cons, List.nodup_cons] at hnd
    rcases List.mem_cons.mp hm with he | ht
    · rw [← he]
      simp [linksGet, List.find?]
    · have hpk : (p.1 == k) = false := by
        apply beq_eq_false_iff_ne.mpr
        intro hc
        apply hnd.1
        rw [hc]
        exact List.mem_map.mpr ⟨(k, c), ht, rfl⟩
      simp only [linksGet, List.find?, hpk]
      exact ih hnd.2 ht

theorem TrieWF.nodup {n : TrieNode} (h : TrieWF n) : (n.links.map Prod.fst).Nodup := by
  cases h with
  | mk hnd hch => exact hnd

theorem TrieWF.child {n : TrieNode} (h : TrieWF n) {p : String × TrieNode}
    (hp : p ∈ n.links) : TrieWF p.2 := by
  cases h with
  | mk hnd hch => exact hch p hp

theorem linksSet_mem (ls : List (String × TrieNode)) (k : String) (n : TrieNode)
    (p : String × TrieNode) (hp : p ∈ linksSet ls k n) : p = (k, n) ∨ p ∈ ls := by
  induction ls with
  | nil =>
    simp only [linksSet, List.mem_singleton] at hp
    exact Or.inl hp
  | cons q t ih =>
    cases hq : q.1 == k with
    | true =>
      rw [linksSet, if_pos hq] at hp
      rcases List.mem_cons.mp hp with hp | hp
      · exact Or.inl hp
      · exact Or.inr (List.mem_cons.mpr (Or.inr hp))
    | false =>
      rw [linksSet, if_neg (by simp [hq])] at hp
      rcases List.mem_cons.mp hp with hp | hp
      · exact Or.inr (List.mem_cons.mpr (Or.inl hp))
      · rcases ih hp with h1 | h2
        · exact Or.inl h1
        · exact Or.inr (List.mem_cons.mpr (Or.inr h2))

theorem TrieWF_insert (key : List String) :
    ∀ (n : TrieNode) (h : Nat), TrieWF n → TrieWF (trieInsert n key h) := by
  induction key with
  | nil =>
    intro n h hwf
    cases n with
    | mk hd ne d ls =>
      cases hwf with
      | mk hnd hch => exact TrieWF.mk hnd hch
  | cons k kt ih =>
    intro n h hwf
    cases n with
    | mk hd ne d ls =>
      cases hwf with
      | mk hnd hch =>
        refine TrieWF.mk (linksSet_nodup _ _ _ hnd) ?_
        intro p hp
        have hchild : TrieWF (match linksGet ls k with
            | some c => c
            | none => TrieNode.mk none 0 (d + 1) []) := by
          cases hc : linksGet ls k with
          | some c => simpa using hch _ (linksGet_mem ls k c hc)
          | none => exact TrieWF.mk (by simp) (by simp)
        rcases linksSet_mem ls k _ p hp with h1 | h2
        · rw [h1]
          exact ih _ h hchild
        · exact hch p h2

theorem TrieWF_build (regs : List (String × String × Nat)) :
    TrieWF (buildRouter regs).root := by
  induction regs using List.reverseRecOn with
  | nil => exact TrieWF.mk (by simp) (by simp)
  | append_singleton regs q ih =>
    have hroot : (buildRouter (regs ++ [q])).root =
        trieInsert (buildRouter regs).root (routeSegs q.1 q.2.1) q.2.2 := by
      simp [buildRouter, List.foldl_append, addRoute]
    rw [hroot]
    exact TrieWF_insert _ _ _ ih

theorem matchExpLinks_mem (eng : RegexpEngine) :
    ∀ (ls : List (String × TrieNode)) (pseg : String) (depth : Nat) (vs : PathValues)
      (c : TrieNode) (vs' : PathValues),
      matchExpLinks eng ls pseg depth vs = some (c, vs') →
      ∃ lbl, (lbl, c) ∈ ls ∧ acceptSeg eng lbl pseg := by
  intro ls
  induction ls with
  | nil =>
    intro pseg depth vs c vs' h
    simp [matchExpLinks] at h
  | cons q rest ih =>
    intro pseg depth vs c vs' h
    obtain ⟨pexp, child⟩ := q
    rw [matchExpLinks] at h
    split at h
    · obtain ⟨lbl, hm, ha⟩ := ih _ _ _ _ _ h
      exact ⟨lbl, List.mem_cons.mpr (Or.inr hm), ha⟩
    · rename_i hnexp
      split at h
      · obtain ⟨lbl, hm, ha⟩ := ih _ _ _ _ _ h
        exact ⟨lbl, List.mem_cons.mpr (Or.inr hm), ha⟩
      · split at h
        · rename_i m hf
          split at h
          · rename_i hcond
            have he : isExpSeg pexp = true := by
              by_contra hc
              exact hnexp (by simpa using hc)
            have hcc := (Bool.and_eq_true _ _).mp hcond
            simp only [Option.some.injEq, Prod.mk.injEq] at h
            refine ⟨pexp, ?_, Or.inr ⟨he, m, hf, by simpa using hcc.1, by simpa using hcc.2⟩⟩
            rw [← h.1]
            exact List.mem_cons.mpr (Or.inl rfl)
          · obtain ⟨lbl, hm, ha⟩ := ih _ _ _ _ _ h
            exact ⟨lbl, List.mem_cons.mpr (Or.inr hm), ha⟩
        · obtain ⟨lbl, hm, ha⟩ := ih _ _ _ _ _ h
          exact ⟨lbl, List.mem_cons.mpr (Or.inr hm), ha⟩

theorem matchSegment_sound (eng : RegexpEngine) (n : TrieNode) (pseg : String)
    (depth : Nat) (vs : PathValues) (hwf : TrieWF n) (c : TrieNode)
    (h : (matchSegment eng n pseg depth vs).1 = some c) :
    ∃ lbl, linksGet n.links lbl = some c ∧ acceptSeg eng lbl pseg ∧ TrieWF c := by
  unfold matchSegment at h
  by_cases hz : n.numExp == 0
  · simp only [hz, if_true] at h
    refine ⟨pseg, h, Or.inl rfl, ?_⟩
    exact hwf.child (linksGet_mem _ _ _ h)
  · simp only [hz, if_false] at h
    cases hm : matchExpLinks eng n.links pseg depth vs with
    | some cv =>
      rw [hm] at h
      obtain ⟨c0, vs0⟩ := cv
      simp only at h
      cases h
      obtain ⟨lbl, hmem, ha⟩ := matchExpLinks_mem eng _ _ _ _ _ _ hm
      refine ⟨lbl, linksGet_of_mem_nodup _ _ _ hwf.nodup hmem, ha, hwf.child hmem⟩
    | none =>
      rw [hm] at h
      simp only at h
      refine ⟨pseg, h, Or.inl rfl, ?_⟩
      exact hwf.child (linksGet_mem _ _ _ h)

theorem walk_ok_some (eng : RegexpEngine) :
    ∀ (segs : List String) (n : TrieNode) (i slen : Nat) (vs : PathValues)
      (n' : TrieNode) (vs' : PathValues),
      TrieWF n →
      walkSegs eng (some n) segs i slen vs = .ok (some n', vs') →
      ∃ ks, List.Forall₂ (acceptSeg eng) ks segs ∧ trieLookup n ks = some n' := by
  intro segs
  induction segs with
  | nil =>
    intro n i slen vs n' vs' hwf h
    simp only [walkSegs, Except.ok.injEq, Prod.mk.injEq, Option.some.injEq] at h
    refine ⟨[], List.Forall₂.nil, ?_⟩
    rw [trieLookup, h.1]
  | cons s rest ih =>
    intro n i slen vs n' vs' hwf h
    simp only [walkSegs] at h
    cases hm : (matchSegment eng n s slen vs).1 with
    | none =>
      rw [hm] at h
      cases rest with
      | nil => simp [walkSegs] at h
      | cons r rs => simp [walkSegs] at h
    | some c =>
      rw [hm] at h
      obtain ⟨lbl, hlk, ha, hwfc⟩ := matchSegment_sound eng n s slen vs hwf c hm
      obtain ⟨ks, hf2, hlook⟩ := ih c (i + 1) slen _ n' vs' hwfc h
      refine ⟨lbl :: ks, List.Forall₂.cons ha hf2, ?_⟩
      rw [trieLookup, hlk]
      exact hlook

/-! ### Router walk lemmas -/

theorem walk_error_cases (eng : RegexpEngine) :
    ∀ (segs : List String) (n? : Option TrieNode) (i slen : Nat) (vs : PathValues)
      (e : StatusError),
      walkSegs eng n? segs i slen vs = .error e →
      e = ErrRouteNotFound ∨ e = ErrRouteBadMethod := by
  intro segs
  induction segs with
  | nil =>
    intro n? i slen vs e h
    cases n? <;> simp [walkSegs] at h
  | cons s rest ih =>
    intro n? i slen vs e h
    cases n? with
    | none =>
      simp only [walkSegs] at h
      by_cases hi : i ≤ 1
      · simp only [hi, if_true, Except.error.injEq] at h
        right
        exact h.symm
      · simp only [hi, if_false, Except.error.injEq] at h
        left
        exact h.symm
    | some n =>
      simp only [walkSegs] at h
      exact ih _ _ _ _ _ h

theorem walk_some_badMethod (eng : RegexpEngine) :
    ∀ (segs : List String) (n : TrieNode) (i slen : Nat) (vs : PathValues),
      walkSegs eng (some n) segs i slen vs = .error ErrRouteBadMethod →
      i = 0 ∧ 2 ≤ segs.length ∧ (matchSegment eng n (segs.headD "") slen vs).1 = none := by
  intro segs
  induction segs with
  | nil =>
    intro n i slen vs h
    simp [walkSegs] at h
  | cons s rest ih =>
    intro n i slen vs h
    simp only [walkSegs] at h
    cases hm : (matchSegment eng n s slen vs).1 with
    | some c =>
      rw [hm] at h
      obtain ⟨hi, -, -⟩ := ih c (i + 1) slen _ h
      omega
    | none =>
      rw [hm] at h
      cases rest with
      | nil => simp [walkSegs] at h
      | cons r rs =>
        simp only [walkSegs] at h
        by_cases hi : i + 1 ≤ 1
        · exact ⟨by omega, by simp, hm⟩
        · simp only [hi, if_false, Except.error.injEq] at h
          exact absurd h (by decide)

theorem walk_method_fail_badMethod (eng : RegexpEngine) (n : TrieNode) (s r : String)
    (rs : List String) (slen : Nat) (vs : PathValues)
    (hm : (matchSegment eng n s slen vs).1 = none) :
    walkSegs eng (some n) (s :: r :: rs) 0 slen vs = .error ErrRouteBadMethod := by
  simp [walkSegs, hm]

set_option maxHeartbeats 800000 in
/-- C1: for every registration sequence and every request, `FindHandler`
either returns a handler `h` together with a matched template: a
registered canonical key whose segments accept the request segments
one-for-one and whose most recently registered handler is exactly `h`
(so re-registering a (method, template) key silently replaces the
handler and stale handlers are never returned) - or it returns one of
the two documented routing errors. -/
theorem findHandler_most_recent (eng : RegexpEngine)
    (regs : List (String × String × Nat)) (m p : String) (vals : PathValues) :
    (∀ h vs2, findHandler eng (buildRouter regs) m p vals = .ok (h, vs2) →
      ∃ ks, List.Forall₂ (acceptSeg eng) ks (requestSegs m p) ∧
        lastHandlerFor regs ks = some h) ∧
    (∀ e, findHandler eng (buildRouter regs) m p vals = .error e →
      e = ErrRouteNotFound ∨ e = ErrRouteBadMethod) := by
  have hfh :
      findHandler eng (buildRouter regs) m p vals =
        (match walkSegs eng (some (buildRouter regs).root) (requestSegs m p) 0
            (requestSegs m p).length vals with
         | .error e => .error e
         | .ok (node, vs) =>
            match node with
            | none => .error ErrRouteNotFound
            | some n =>
                match n.handler with
                | none => .error ErrRouteNotFound
                | some h => .ok (h, vs)) := rfl
  constructor
  · intro h vs2 he
    rw [hfh] at he
    cases hw : walkSegs eng (some (buildRouter regs).root) (requestSegs m p) 0
        (requestSegs m p).length vals with
    | error e =>
      rw [hw] at he
      simp at he
    | ok nv =>
      obtain ⟨n?, vs'⟩ := nv
      rw [hw] at he
      cases n? with
      | none => simp at he
      | some n =>
        cases hh : n.handler with
        | none =>
          simp only [hh] at he
          cases he
        | some hd =>
          simp only [hh, Except.ok.injEq, Prod.mk.injEq] at he
          obtain ⟨ks, hf2, hlook⟩ :=
            walk_ok_some eng _ _ _ _ _ _ _ (TrieWF_build regs) hw
          refine ⟨ks, hf2, ?_⟩
          rw [← handlerAt_build]
          unfold handlerAt
          rw [hlook]
          simp only [Option.some_bind]
          rw [hh, he.1]
  · intro e he
    rw [hfh] at he
    cases hw : walkSegs eng (some (buildRouter regs).root) (requestSegs m p) 0
        (requestSegs m p).length vals with
    | error e2 =>
      rw [hw] at he
      simp only [Except.error.injEq] at he
      subst he
      exact walk_error_cases eng _ _ _ _ _ _ hw
    | ok nv =>
      obtain ⟨n?, vs'⟩ := nv
      rw [hw] at he
      cases n? with
      | none =>
        simp only [Except.error.injEq] at he
        subst he
        exact Or.inl rfl
      | some n =>
        cases hh : n.handler with
        | none =>
          simp only [hh, Except.error.injEq] at he
          subst he
          exact Or.inl rfl
        | some hd =>
          simp only [hh] at he
          cases he

/-- Witness for `findHandler_most_recent`: registering `GET /posts`
twice and requesting `GET /posts` yields the second handler, with the
route key matching the request segment-for-segment. -/
theorem findHandler_most_recent_witness :
    ∃ ks, List.Forall₂ (acceptSeg noMatchEngine) ks (requestSegs "GET" "/posts") ∧
      lastHandlerFor [("GET", "/posts", 1), ("GET", "/posts", 2)] ks = some 2 :=
  (findHandler_most_recent noMatchEngine [("GET", "/posts", 1), ("GET", "/posts", 2)]
    "GET" "/posts" []).1 2 [] rfl

set_option maxHeartbeats 800000 in
/-- C2 (amended): `FindHandler` fails only with the two documented
errors, carrying codes 404 and 405; when the walk still has an
expression-or-literal match for the first (method) segment, any failure
is the 404 not-found error; the 405 method-not-allowed error occurs
exactly when the method segment mismatches AND the split request has at
least two segments (on a bare one-segment path a method mismatch gives
404 instead); and on a 405 error `dispatch` sets the `Allow` header
from `PathMethods` next to the short `Cache-Control`. -/
theorem routing_error_codes (eng : RegexpEngine) (regs : List (String × String × Nat))
    (m p : String) (vals : PathValues) (hdrs : Headers) :
    ErrRouteNotFound.code = 404 ∧ ErrRouteBadMethod.code = 405 ∧
    (∀ e, findHandler eng (buildRouter regs) m p vals = .error e →
      ((matchSegment eng (buildRouter regs).root ((requestSegs m p).headD "")
          (requestSegs m p).length vals).1.isSome = true → e = ErrRouteNotFound) ∧
      (e = ErrRouteBadMethod →
        2 ≤ (requestSegs m p).length ∧
        (matchSegment eng (buildRouter regs).root ((requestSegs m p).headD "")
          (requestSegs m p).length vals).1 = none) ∧
      (e = ErrRouteNotFound ∨ e = ErrRouteBadMethod)) ∧
    ((matchSegment eng (buildRouter regs).root ((requestSegs m p).headD "")
        (requestSegs m p).length vals).1 = none →
      2 ≤ (requestSegs m p).length →
      findHandler eng (buildRouter regs) m p vals = .error ErrRouteBadMethod) ∧
    (findHandler eng (buildRouter regs) m p vals = .error ErrRouteBadMethod →
      hGet (dispatch eng (buildRouter regs) m p vals hdrs).1 "Allow"
        = pathMethods eng (buildRouter regs) p ∧
      hGet (dispatch eng (buildRouter regs) m p vals hdrs).1 "Cache-Control"
        = "max-age=300, stale-if-error=600") := by
  refine ⟨rfl, rfl, ?_, ?_, ?_⟩
  · intro e he
    have hfh :
        findHandler eng (buildRouter regs) m p vals =
          (match walkSegs eng (some (buildRouter regs).root) (requestSegs m p) 0
              (requestSegs m p).length vals with
           | .error e => .error e
           | .ok (node, vs) =>
              match node with
              | none => .error ErrRouteNotFound
              | some n =>
                  match n.handler with
                  | none => .error ErrRouteNotFound
                  | some h => .ok (h, vs)) := rfl
    rw [hfh] at he
    cases hw : walkSegs eng (some (buildRouter regs).root) (requestSegs m p) 0
        (requestSegs m p).length vals with
    | error e' =>
      rw [hw] at he
      simp only [Except.error.injEq] at he
      subst he
      refine ⟨?_, ?_, walk_error_cases eng _ _ _ _ _ _ hw⟩
      · intro hsome
        rcases walk_error_cases eng _ _ _ _ _ _ hw with h404 | h405
        · exact h404
        · subst h405
          obtain ⟨-, -, hnone⟩ := walk_some_badMethod eng _ _ _ _ _ hw
          rw [hnone] at hsome
          cases hsome
      · intro hbm
        subst hbm
        obtain ⟨-, hlen, hnone⟩ := walk_some_badMethod eng _ _ _ _ _ hw
        exact ⟨hlen, hnone⟩
    | ok nv =>
      obtain ⟨n?, vs'⟩ := nv
      rw [hw] at he
      cases n? with
      | none =>
        simp only [Except.error.injEq] at he
        subst he
        refine ⟨fun _ => rfl, fun hbm => absurd hbm (by decide), Or.inl rfl⟩
      | some n =>
        cases hh : n.handler with
        | none =>
          simp only [hh, Except.error.injEq] at he
          subst he
          refine ⟨fun _ => rfl, fun hbm => absurd hbm (by decide), Or.inl rfl⟩
        | some hd =>
          simp only [hh] at he
          cases he
  · intro hnone hlen
    rcases hsegs : requestSegs m p with - | ⟨s, rest⟩
    · rw [hsegs] at hlen
      simp at hlen
    · rcases rest with - | ⟨r, rs⟩
      · rw [hsegs] at hlen
        simp at hlen
      · have hfh :
            findHandler eng (buildRouter regs) m p vals =
              (match walkSegs eng (some (buildRouter regs).root) (requestSegs m p) 0
                  (requestSegs m p).length vals with
               | .error e => .error e
               | .ok (node, vs) =>
                  match node with
                  | none => .error ErrRouteNotFound
                  | some n =>
                      match n.handler with
                      | none => .error ErrRouteNotFound
                      | some h => .ok (h, vs)) := rfl
        rw [hfh]
        rw [hsegs] at hnone ⊢
        simp only [List.headD_cons] at hnone
        rw [walk_method_fail_badMethod eng _ s r rs _ vals hnone]
  · intro hbm
    have hd : dispatch eng (buildRouter regs) m p vals hdrs =
        (hSet (hSet hdrs "Cache-Control" "max-age=300, stale-if-error=600") "Allow"
          (pathMethods eng (buildRouter regs) p), .error ErrRouteBadMethod) := by
      unfold dispatch
      rw [hbm]
      simp
    rw [hd]
    constructor
    · exact hGet_hSet_self _ _ _
    · rw [hGet_hSet_ne _ _ _ _ (by decide)]
      exact hGet_hSet_self _ _ _

/-- Witness for `routing_error_codes`: one registered route `GET /`,
request `TRACE /x` gives the 405 error and `dispatch` fills `Allow` from
`PathMethods`. -/
theorem routing_error_codes_witness :
    findHandler noMatchEngine (buildRouter [("GET", "/", 7)]) "TRACE" "/x" [] =
      .error ErrRouteBadMethod ∧
    hGet (dispatch noMatchEngine (buildRouter [("GET", "/", 7)]) "TRACE" "/x" [] []).1
      "Allow" = pathMethods noMatchEngine (buildRouter [("GET", "/", 7)]) "/x" :=
  ⟨rfl,
   ((routing_error_codes noMatchEngine [("GET", "/", 7)] "TRACE" "/x" [] []).2.2.2.2 rfl).1⟩

/-- C2 counterexample: with only `GET /` registered, the request
`TRACE /` fails on its first segment (the method), yet `FindHandler`
returns the 404 not-found error rather than the 405
method-not-allowed error, because the `i <= 1` check never runs when
the split request has a single segment. -/
theorem findHandler_root_method_mismatch_404 :
    findHandler noMatchEngine (buildRouter [("GET", "/", 7)]) "TRACE" "/" [] =
      .error ErrRouteNotFound ∧
    (matchSegment noMatchEngine (buildRouter [("GET", "/", 7)]).root "TRACE" 1 []).1.isNone
      = true ∧
    ErrRouteNotFound.code = 404 ∧ ErrRouteBadMethod.code = 405 ∧
    ErrRouteNotFound ≠ ErrRouteBadMethod := by
  exact ⟨rfl, rfl, rfl, rfl, by decide⟩

end Relax
